import Mathlib

/-!
# Verification of the usdFBX node reader (`src/FbxNodeReader.cpp`)

A shallow embedding of the attribute-transcoding core of the FBX-to-USD
node reader, together with proofs about it.  Source-side machine values
are modelled as follows:

* machine integers are `Int`/`Nat` with explicit `% 2^w` wrapping where a
  narrowing cast occurs in the source;
* `float`/`double`/half payloads are modelled as `Rat`.  The source never
  performs floating-point arithmetic on a property payload when converting
  it (it only boxes the value or performs an exact widening), so modelling
  the carrier as `Rat` with identity conversions is faithful; half-precision
  rounding of `GfHalf` and float rounding of curve evaluation are not
  modelled, and no theorem below depends on them;
* `SdfPath` is modelled as its list of path-element names (so the path
  `A/B/C` is `["A", "B", "C"]` and `SdfPath::EmptyPath()` is `[]`);
* FBX scene objects reached through pointers (`FbxMesh` layers, skin
  clusters, the parent chain of a joint) are modelled as explicit
  structures; a parent pointer chain becomes an explicit list of
  ancestors, nearest parent first.
-/

/-- The FBX property data types that `FbxNodeReader.cpp` distinguishes
(`EFbxType`).  `eFbxOther` stands for every tag that falls into the
`default:` branch of the source's switches. -/
inductive FbxDataType where
  | eFbxUChar
  | eFbxChar
  | eFbxShort
  | eFbxUShort
  | eFbxLongLong
  | eFbxULongLong
  | eFbxHalfFloat
  | eFbxBool
  | eFbxInt
  | eFbxUInt
  | eFbxFloat
  | eFbxDouble
  | eFbxDouble2
  | eFbxDouble3
  | eFbxDouble4
  | eFbxDouble4x4
  | eFbxTime
  | eFbxDistance
  | eFbxBlob
  | eFbxString
  | eFbxOther
deriving DecidableEq, Repr

/-- The closed set of target (`SdfValueTypeName`) type names the mapper
produces. -/
inductive SdfTy where
  | UChar
  | Int
  | UInt
  | Int64
  | UInt64
  | Half
  | Bool
  | Float
  | Double
  | Double2
  | Double3
  | Double4
  | Matrix4d
  | TimeCode
  | Token
deriving DecidableEq, Repr

/-- A converted target value (the dynamic content of a `VtValue` produced
by the mapper).  Numeric carriers are `Int` (machine integers, already
wrapped to their width by the conversion that built them) and `Rat`
(floating-point payloads, see the module comment). -/
inductive VtValue where
  | uint8 (v : Int)
  | int32 (v : Int)
  | uint32 (v : Int)
  | int64 (v : Int)
  | uint64 (v : Int)
  | half (v : Rat)
  | boolean (b : Bool)
  | float (v : Rat)
  | double (v : Rat)
  | vec2d (a b : Rat)
  | vec3d (a b c : Rat)
  | vec4d (a b c d : Rat)
  | vec2f (a b : Rat)
  | matrix4d (m : List Rat)
  | timeCode (t : Rat)
  | token (s : String)
deriving DecidableEq, Repr

/-- The dynamic type of a `VtValue` (what `VtValue::GetType` would report). -/
inductive VtType where
  | uint8T
  | int32T
  | uint32T
  | int64T
  | uint64T
  | halfT
  | boolT
  | floatT
  | doubleT
  | vec2dT
  | vec3dT
  | vec4dT
  | vec2fT
  | matrix4dT
  | timeCodeT
  | tokenT
deriving DecidableEq, Repr

/-- Dynamic type of a converted value. -/
def vtType : VtValue → VtType
  | .uint8 _ => .uint8T
  | .int32 _ => .int32T
  | .uint32 _ => .uint32T
  | .int64 _ => .int64T
  | .uint64 _ => .uint64T
  | .half _ => .halfT
  | .boolean _ => .boolT
  | .float _ => .floatT
  | .double _ => .doubleT
  | .vec2d _ _ => .vec2dT
  | .vec3d _ _ _ => .vec3dT
  | .vec4d _ _ _ _ => .vec4dT
  | .vec2f _ _ => .vec2fT
  | .matrix4d _ => .matrix4dT
  | .timeCode _ => .timeCodeT
  | .token _ => .tokenT

/-- A source property: its type tag and its stored payload.  The payload
fields mirror the typed `FbxProperty::Get<T>()` accessors: a property of an
integral tag stores its value in `intVal` (the stored value of the machine
type named by the tag, e.g. an `FbxChar` property stores a value in
`[-128, 127]`), a real-valued tag stores in `realVal`, and so on.  Only the
field selected by `dataType` is meaningful. -/
structure FbxProperty where
  dataType : FbxDataType
  intVal : Int := 0
  boolVal : Bool := false
  realVal : Rat := 0
  real2Val : Rat × Rat := (0, 0)
  real3Val : Rat × Rat × Rat := (0, 0, 0)
  real4Val : Rat × Rat × Rat × Rat := (0, 0, 0, 0)
  matVal : List Rat := List.replicate 16 0
  timeVal : Rat := 0
  strVal : String := ""
deriving DecidableEq, Repr

/-- `FbxToUsd::getSdfTypeName` (FbxNodeReader.cpp:121-165), the fixed
source-tag-to-target-type table. -/
def getSdfTypeName : FbxDataType → SdfTy
  | .eFbxUChar => .UChar
  | .eFbxChar => .UChar
  | .eFbxShort => .Int
  | .eFbxUShort => .UInt
  | .eFbxLongLong => .Int64
  | .eFbxULongLong => .UInt64
  | .eFbxHalfFloat => .Half
  | .eFbxBool => .Bool
  | .eFbxInt => .Int
  | .eFbxUInt => .UInt
  | .eFbxDistance => .Float
  | .eFbxFloat => .Float
  | .eFbxDouble => .Double
  | .eFbxDouble2 => .Double2
  | .eFbxDouble3 => .Double3
  | .eFbxDouble4 => .Double4
  | .eFbxDouble4x4 => .Matrix4d
  | .eFbxTime => .TimeCode
  | .eFbxBlob => .Token
  | .eFbxString => .Token
  | .eFbxOther => .Token

/-- `FbxToUsd::getValue` (FbxNodeReader.cpp:167-232): default-value
extraction of one source property.

Cast modelling: `static_cast<uint8_t>(FbxChar)` is the value mod `2^8`
(exact C++ semantics of a signed-to-unsigned integral conversion); the
widening casts from 16-bit payloads to 32-bit (and `FbxLongLong` to
`int64_t`) preserve the stored value, so they are the identity on the
payload; `FbxHalfFloat::value()` widens a half to `float` exactly and
`GfHalf` narrows that very float back, so the half round-trip is the
identity; `FbxTime::GetFrameCountPrecise` is modelled by storing the time
payload directly in frame units. -/
def getValue (p : FbxProperty) : VtValue :=
  match p.dataType with
  | .eFbxUChar => .uint8 p.intVal
  | .eFbxChar => .uint8 (p.intVal.emod 256)
  | .eFbxShort => .int32 p.intVal
  | .eFbxUShort => .uint32 p.intVal
  | .eFbxLongLong => .int64 p.intVal
  | .eFbxULongLong => .uint64 p.intVal
  | .eFbxHalfFloat => .half p.realVal
  | .eFbxBool => .boolean p.boolVal
  | .eFbxInt => .int32 p.intVal
  | .eFbxUInt => .uint32 p.intVal
  | .eFbxFloat => .float p.realVal
  | .eFbxDouble => .double p.realVal
  | .eFbxDouble2 => .vec2d p.real2Val.1 p.real2Val.2
  | .eFbxDouble3 => .vec3d p.real3Val.1 p.real3Val.2.1 p.real3Val.2.2
  | .eFbxDouble4 => .vec4d p.real4Val.1 p.real4Val.2.1 p.real4Val.2.2.1 p.real4Val.2.2.2
  | .eFbxDouble4x4 => .matrix4d p.matVal
  | .eFbxTime => .timeCode p.timeVal
  | .eFbxDistance => .float p.realVal
  | .eFbxBlob => .token p.strVal
  | .eFbxString => .token p.strVal
  | .eFbxOther => .token "UNKNOWN TYPE"

/-- Truncation toward zero of a rational, the rounding used by C++
float-to-integer conversions. -/
def truncQ (q : Rat) : Int :=
  if 0 ≤ q then ⌊q⌋ else ⌈q⌉

/-- Channel access `animChannels[i]`.  In the source the vector always has
`GetChannelsCount()` entries; out-of-range access is modelled as 0. -/
def chanAt (channels : List Rat) (i : Nat) : Rat :=
  channels.getD i 0

/-- `FbxToUsd::getValue(const std::vector<float>&)`
(FbxNodeReader.cpp:234-290): channel-array (animated) extraction.  The
switch has no `eFbxTime` and no `eFbxDistance` case, so those tags fall
through to the `default:` sentinel.

Cast modelling: a float-to-integer `static_cast` truncates toward zero
(`truncQ`); for the 8-bit case the truncated value is wrapped mod `2^8`,
which is what the compiled narrowing conversion does on mainstream targets
(the C++ standard leaves a float value outside the destination range
undefined); `static_cast<bool>` tests against zero. -/
def getValueChannels (dt : FbxDataType) (channels : List Rat) : VtValue :=
  match dt with
  | .eFbxBool => .boolean (decide (chanAt channels 0 ≠ 0))
  | .eFbxUChar => .uint8 ((truncQ (chanAt channels 0)).emod 256)
  | .eFbxChar => .uint8 ((truncQ (chanAt channels 0)).emod 256)
  | .eFbxShort => .int32 (truncQ (chanAt channels 0))
  | .eFbxUShort => .uint32 (truncQ (chanAt channels 0))
  | .eFbxInt => .int32 (truncQ (chanAt channels 0))
  | .eFbxUInt => .uint32 (truncQ (chanAt channels 0))
  | .eFbxLongLong => .int64 (truncQ (chanAt channels 0))
  | .eFbxULongLong => .uint64 (truncQ (chanAt channels 0))
  | .eFbxHalfFloat => .half (chanAt channels 0)
  | .eFbxFloat => .float (chanAt channels 0)
  | .eFbxDouble => .double (chanAt channels 0)
  | .eFbxDouble2 => .vec2d (chanAt channels 0) (chanAt channels 1)
  | .eFbxDouble3 => .vec3d (chanAt channels 0) (chanAt channels 1) (chanAt channels 2)
  | .eFbxDouble4 =>
    .vec4d (chanAt channels 0) (chanAt channels 1) (chanAt channels 2) (chanAt channels 3)
  | .eFbxDouble4x4 => .matrix4d ((List.range 16).map (chanAt channels))
  | _ => .token "UNKNOWN VALUE"

/-- `FbxLayerElement::EMappingMode` (the modes the reader tests). -/
inductive MappingMode where
  | eByControlPoint
  | eByPolygonVertex
  | eOtherMapping
deriving DecidableEq, Repr

/-- `FbxLayerElement::EReferenceMode`. -/
inductive ReferenceMode where
  | eDirect
  | eIndex
  | eIndexToDirect
deriving DecidableEq, Repr

/-- A three-float value held by a layer element (normal, tangent or
color). -/
abbrev Vec3q := Rat × Rat × Rat

/-- One `FbxLayerElementTemplate<T>`: mapping mode, reference mode, the
direct array and the index array.  Array indices are modelled as naturals;
out-of-range `GetAt` returns a default-constructed value (zero). -/
structure LayerElementData where
  mappingMode : MappingMode
  referenceMode : ReferenceMode
  directArray : List Vec3q
  indexArray : List Nat
deriving DecidableEq, Repr

/-- One `FbxLayer`: the per-semantic elements the reader asks for
(`GetNormals`, `GetTangents`, `GetUVs`, `GetVertexColors`), each possibly
absent. -/
structure Layer where
  normals : Option LayerElementData := none
  tangents : Option LayerElementData := none
  uvs : Option LayerElementData := none
  vertexColors : Option LayerElementData := none
deriving DecidableEq, Repr

/-- An `FbxMesh` together with the node-level fallback the normals
converter can use: layers, the polygon sizes in authoring order, the
control-point count, and `FbxMesh::GetPolygonVertexNormal` as an abstract
function (`none` models a `false` return). -/
structure Mesh where
  layers : List Layer
  polygonSizes : List Nat
  controlPointsCount : Nat
  polygonVertexNormal : Nat → Nat → Option Vec3q

/-- `helpers::getAtVertexIndex` (FbxNodeReader.cpp:56-71): direct
addressing indexes the direct array by position, indexed addressing looks
the position up in the index array first. -/
def getAtVertexIndex (e : LayerElementData) (iVertexIndex : Nat) : Vec3q :=
  match e.referenceMode with
  | .eDirect => e.directArray.getD iVertexIndex (0, 0, 0)
  | .eIndex => e.directArray.getD (e.indexArray.getD iVertexIndex 0) (0, 0, 0)
  | .eIndexToDirect => e.directArray.getD (e.indexArray.getD iVertexIndex 0) (0, 0, 0)

/-- The matching test of the normals / tangents selection loops: mapping
mode `eByPolygonVertex` and reference mode other than `eIndex`. -/
def perPolygonVertexMatch (e : LayerElementData) : Bool :=
  e.mappingMode = MappingMode.eByPolygonVertex && e.referenceMode ≠ ReferenceMode.eIndex

/-- The (negated-`continue`) matching test of the vertex-color selection
loop (FbxNodeReader.cpp:632-636): an element is kept unless its mapping
mode differs from `eByControlPoint` and its reference mode differs from
`eIndex`. -/
def vertexColorMatch (e : LayerElementData) : Bool :=
  !(e.mappingMode ≠ MappingMode.eByControlPoint && e.referenceMode ≠ ReferenceMode.eIndex)

/-- One step of a layer-selection loop: a present element that passes the
matching test overwrites the selection, anything else leaves it. -/
def pickLayerElement (p : LayerElementData → Bool) (acc : Option LayerElementData)
    (oe : Option LayerElementData) : Option LayerElementData :=
  match oe with
  | some e => if p e then some e else acc
  | none => acc

/-- A present element that passes the matching test, if any. -/
def matchedLayerElement (p : LayerElementData → Bool) (oe : Option LayerElementData) :
    Option LayerElementData :=
  match oe with
  | some e => if p e then some e else none
  | none => none

/-- The layer-scan of `converters::meshNormals` (FbxNodeReader.cpp:509-522):
each matching element overwrites the previously selected one, and there is
no early exit. -/
def selectNormalsElement (layers : List Layer) : Option LayerElementData :=
  layers.foldl (fun selected layer => pickLayerElement perPolygonVertexMatch selected layer.normals)
    none

/-- The layer-scan of `converters::meshTangents` (FbxNodeReader.cpp:556-570). -/
def selectTangentsElement (layers : List Layer) : Option LayerElementData :=
  layers.foldl (fun selected layer => pickLayerElement perPolygonVertexMatch selected layer.tangents)
    none

/-- The layer-scan of `converters::meshVertexColors`
(FbxNodeReader.cpp:626-639). -/
def selectVertexColorsElement (layers : List Layer) : Option LayerElementData :=
  layers.foldl
    (fun selected layer => pickLayerElement vertexColorMatch selected layer.vertexColors)
    none

/-- The elements of the layers' normals slots that pass the matching test,
in layer order. -/
def normalsMatches (layers : List Layer) : List LayerElementData :=
  layers.filterMap fun layer => matchedLayerElement perPolygonVertexMatch layer.normals

/-- The elements of the layers' tangents slots that pass the matching
test, in layer order. -/
def tangentsMatches (layers : List Layer) : List LayerElementData :=
  layers.filterMap fun layer => matchedLayerElement perPolygonVertexMatch layer.tangents

/-- The elements of the layers' vertex-color slots that pass the matching
test, in layer order. -/
def vertexColorsMatches (layers : List Layer) : List LayerElementData :=
  layers.filterMap fun layer => matchedLayerElement vertexColorMatch layer.vertexColors

/-- The polygon/vertex double loop of `converters::meshNormals`
(FbxNodeReader.cpp:524-545).  The state is the emitted values, the polygon
index, and the running face-vertex index `currentIndex`; note that the
source only advances `currentIndex` on the layer-element branch. -/
def meshNormalsParse (m : Mesh) (sel : Option LayerElementData) : List Vec3q :=
  (m.polygonSizes.foldl
    (fun (st : List Vec3q × Nat × Nat) size =>
      let inner :=
        (List.range size).foldl
          (fun (st2 : List Vec3q × Nat) polygonVertex =>
            match sel with
            | some e => (st2.1 ++ [getAtVertexIndex e st2.2], st2.2 + 1)
            | none =>
              match m.polygonVertexNormal st.2.1 polygonVertex with
              | some nrm => (st2.1 ++ [nrm], st2.2)
              | none => (st2.1, st2.2))
          (st.1, st.2.2)
      (inner.1, st.2.1 + 1, inner.2))
    ([], 0, 0)).1

/-- `converters::meshNormals` (FbxNodeReader.cpp:502-548). -/
def meshNormals (m : Mesh) : List Vec3q :=
  meshNormalsParse m (selectNormalsElement m.layers)

/-- The polygon/vertex double loop of `converters::meshTangents`
(FbxNodeReader.cpp:577-587), run only when an element was selected. -/
def meshTangentsParse (m : Mesh) (e : LayerElementData) : List Vec3q :=
  (m.polygonSizes.foldl
    (fun (st : List Vec3q × Nat) size =>
      (List.range size).foldl
        (fun (st2 : List Vec3q × Nat) _ =>
          (st2.1 ++ [getAtVertexIndex e st2.2], st2.2 + 1))
        st)
    ([], 0)).1

/-- `converters::meshTangents` (FbxNodeReader.cpp:550-590). -/
def meshTangents (m : Mesh) : List Vec3q :=
  match selectTangentsElement m.layers with
  | none => []
  | some e => meshTangentsParse m e

/-- `converters::meshVertexColors` (FbxNodeReader.cpp:621-657).  The parse
loop reads the direct array at each control-point id, ignoring the
reference mode. -/
def meshVertexColors (m : Mesh) : List Vec3q :=
  match selectVertexColorsElement m.layers with
  | none => []
  | some e =>
    (List.range m.controlPointsCount).map fun i => e.directArray.getD i (0, 0, 0)

/-- `converters::skeletonToTokenPath` (FbxNodeReader.cpp:727-745), modelled
on a joint given as its own name plus its ancestor names (nearest parent
first; the parent pointer chain of the source).  The loop that prepends
parent names until the root joint's name is reached is
`skeletonToTokenLoop`.  If the chain runs out before the root name is
found the source would dereference past the scene root; that case is
modelled by returning the path built so far and is unreachable for joints
that lie below the root joint. -/
def skeletonToTokenLoop (rootJointName : String) :
    String → List String → List String → List String
  | parentName, rest, jointPath =>
    if parentName = rootJointName then jointPath
    else
      match rest with
      | [] => jointPath
      | g :: rest' => skeletonToTokenLoop rootJointName g rest' (g :: jointPath)

/-- See `skeletonToTokenLoop`. -/
def skeletonToTokenPath (jointName : String) (ancestors : List String)
    (rootJointName : String) : List String :=
  if jointName = rootJointName then [jointName]
  else
    match ancestors with
    | [] => [jointName]
    | p :: rest => skeletonToTokenLoop rootJointName p rest [p, jointName]

/-- `converters::skeletonHierarchyToTokenList` (FbxNodeReader.cpp:751-761):
the root joint's name is taken from the first entry, and every entry is
mapped through `skeletonToTokenPath`.  A hierarchy entry is a joint name
together with its ancestor names, nearest parent first. -/
def skeletonHierarchyToTokenList (hierarchy : List (String × List String)) :
    List (List String) :=
  let rootJointName := (hierarchy.headD ("", [])).1
  hierarchy.map fun s => skeletonToTokenPath s.1 s.2 rootJointName

/-- The node-attribute kinds the skeleton readers distinguish. -/
inductive AttrKind where
  | eSkeleton
  | eMesh
  | eCamera
  | eOtherAttr
deriving DecidableEq, Repr

/-- A source node for the skeleton readers: name, optional node attribute,
children in authoring order. -/
inductive FbxNodeT where
  | node (name : String) (attr : Option AttrKind) (children : List FbxNodeT)

/-- Name of a node. -/
def FbxNodeT.name : FbxNodeT → String
  | .node n _ _ => n

/-- Children of a node. -/
def FbxNodeT.children : FbxNodeT → List FbxNodeT
  | .node _ _ cs => cs

/-- The `isSkeleton` lambda of `readSkeleton` / `readSkeletonAnimation`
(FbxNodeReader.cpp:1218-1222, 1431-1435): the node has an attribute and its
type is `eSkeleton`. -/
def isSkeletonNode : FbxNodeT → Bool
  | .node _ attr _ => attr = some AttrKind.eSkeleton

mutual

/-- The recursive `collectSkeletonHierarchy` lambda of `readSkeleton` /
`readSkeletonAnimation` (FbxNodeReader.cpp:1468-1489): pre-order traversal
that starts from the hierarchy root (pushed unconditionally by the caller)
and recurses only into children that are skeleton nodes.  Each collected
entry carries the node's name and its ancestor names (nearest first),
modelling the source's parent pointers. -/
def collectSkeletonHierarchy (ancestors : List String) : FbxNodeT → List (String × List String)
  | .node n _ cs => (n, ancestors) :: collectSkeletonChildren (n :: ancestors) cs

/-- The per-child loop of `collectSkeletonHierarchy`: a non-skeleton child
is skipped (with a warning, see `collectSkeletonWarnings`), a skeleton
child is collected and recursed into. -/
def collectSkeletonChildren (ancestors : List String) : List FbxNodeT → List (String × List String)
  | [] => []
  | c :: cs =>
    (if isSkeletonNode c then collectSkeletonHierarchy ancestors c else [])
      ++ collectSkeletonChildren ancestors cs

end

mutual

/-- The names of the nodes for which the traversal of
`collectSkeletonHierarchy` emits its `TF_WARN` ("... is not an FbxSkeleton
node, but is part of a skeleton hierarchy! It and its children will be
ignored", FbxNodeReader.cpp:1477-1480). -/
def collectSkeletonWarnings : FbxNodeT → List String
  | .node _ _ cs => collectSkeletonChildrenWarnings cs

/-- See `collectSkeletonWarnings`. -/
def collectSkeletonChildrenWarnings : List FbxNodeT → List String
  | [] => []
  | c :: cs =>
    (if isSkeletonNode c then collectSkeletonWarnings c else [c.name])
      ++ collectSkeletonChildrenWarnings cs

end

/-- One step of the parent chain of a bone: the parent's name and whether
that parent carries a skeleton node attribute. -/
structure BoneAnc where
  name : String
  isSkeletonKind : Bool
deriving DecidableEq, Repr

/-- A bone (`FbxCluster::GetLink()`'s node): its name and its ancestor
chain, nearest parent first, up to but excluding the scene root node.
(`GetParent()` on the last listed ancestor yields the scene root, whose
node attribute is null.) -/
structure BoneNode where
  name : String
  ancestors : List BoneAnc
deriving DecidableEq, Repr

/-- One `FbxCluster`: the optional link (bound joint) and the sparse
control-point influence list.  The source stores the influences as the two
parallel arrays `GetControlPointIndices()` / `GetControlPointWeights()`
iterated together; they are modelled as one list of
(control-point index, weight) pairs. -/
structure Cluster where
  link : Option BoneNode
  influences : List (Nat × Rat)
deriving DecidableEq, Repr

/-- An `FbxSkin`: its ordered clusters. -/
structure Skin where
  clusters : List Cluster
deriving DecidableEq, Repr

/-- The root-bone walk of `converters::getBindingData`
(FbxNodeReader.cpp:822-832): ascend from the first cluster's link while the
parent exists and carries a skeleton attribute.  Returns the root bone's
name together with its remaining ancestor chain. -/
def findRootBone : String → List BoneAnc → String × List BoneAnc
  | n, [] => (n, [])
  | n, a :: rest =>
    if a.isSkeletonKind then findRootBone a.name rest else (n, a :: rest)

/-- The skeleton-path walk of `converters::getBindingData`
(FbxNodeReader.cpp:885-895): starting from the root bone's name, prepend
each ancestor's name until the scene root is reached, then prepend the
fixed `/ROOT` prefix. -/
def buildSkeletonPathLoop : List BoneAnc → List String → List String
  | [], jointPath => jointPath
  | a :: rest, jointPath => buildSkeletonPathLoop rest (a.name :: jointPath)

/-- See `buildSkeletonPathLoop`. -/
def pathToSkeletonOf (rootBoneName : String) (remaining : List BoneAnc) : List String :=
  "ROOT" :: buildSkeletonPathLoop remaining [rootBoneName]

/-- `converters::BindingData` (FbxNodeReader.cpp:799-806). -/
structure BindingData where
  names : List (List String)
  perVertexInfluences : List Nat
  perVertexWeights : List Rat
  influencesPerVertex : Nat
  pathToSkeleton : List String
deriving DecidableEq, Repr

/-- The accumulation state of the cluster loop of
`converters::getBindingData`: the joint token paths pushed so far, the
per-control-point influence lists, and the running `elementSize`. -/
structure BindAccum where
  jointsUsed : List (List String)
  perVertex : List (List (Nat × Rat))
  elementSize : Nat
deriving DecidableEq, Repr

/-- The body of the inner control-point loop (FbxNodeReader.cpp:846-854):
append `(influenceIndex, weight)` to the addressed control point's list and
raise `elementSize` to that list's new length if larger.  `influenceIndex`
is the number of joints pushed so far.  A control-point index out of range
writes out of bounds in the source; it is modelled as a no-op
(`List.set` ignores out-of-range positions) and the theorems below assume
well-formed indices. -/
def recordInfluence (acc : BindAccum) (cp : Nat) (w : Rat) : BindAccum :=
  let influenceIndex := acc.jointsUsed.length
  let pv := acc.perVertex.set cp ((acc.perVertex.getD cp []) ++ [(influenceIndex, w)])
  { acc with
    perVertex := pv
    elementSize := max ((pv.getD cp []).length) acc.elementSize }

/-- One iteration of the cluster loop (FbxNodeReader.cpp:835-859): a
cluster without a link is skipped entirely by the `continue`; otherwise its
influences are recorded and the link's token path is pushed. -/
def processCluster (rootBoneName : String) (acc : BindAccum) (c : Cluster) : BindAccum :=
  match c.link with
  | none => acc
  | some link =>
    let acc' := c.influences.foldl (fun a iw => recordInfluence a iw.1 iw.2) acc
    { acc' with
      jointsUsed :=
        acc'.jointsUsed
          ++ [skeletonToTokenPath link.name (link.ancestors.map BoneAnc.name) rootBoneName] }

/-- The flattening of one control point's influence list to exactly
`elementSize` entries (FbxNodeReader.cpp:869-878), with the source's
`size_t` arithmetic `lastIndex = elementSize - (elementSize - size)`
rendered in truncated `Nat` subtraction; missing entries are the
`missingValue` pair `(0, 0)`. -/
def padRow (elementSize : Nat) (row : List (Nat × Rat)) : List (Nat × Rat) :=
  let lastIndex := elementSize - (elementSize - row.length)
  (List.range elementSize).map fun i => if i < lastIndex then row.getD i (0, 0) else (0, 0)

/-- Splitting a flat array into consecutive chunks of `stride` entries
(the per-component view `UsdSkel` takes of a flat vertex-major array). -/
def chunksOf (stride : Nat) (l : List (Nat × Rat)) : List (List (Nat × Rat)) :=
  if h : stride = 0 ∨ l = [] then (if l = [] then [] else [l])
  else
    l.take stride :: chunksOf stride (l.drop stride)
termination_by l.length
decreasing_by
  · simp only [List.length_drop]
    have h1 : stride ≠ 0 := fun hc => h (Or.inl hc)
    have h2 : l ≠ [] := fun hc => h (Or.inr hc)
    have : 0 < l.length := List.length_pos.mpr h2
    omega

/-- Modelled from the spec: `UsdSkelNormalizeWeights` is an external pxr
USD library routine, absent from this repository; per the spec it
normalizes each vertex's weights to sum to 1 and leaves an all-zero vertex
at zero.  The model normalizes each `stride`-sized chunk of the flat
array; the paired joint indices are untouched. -/
def normalizeChunk (chunk : List (Nat × Rat)) : List (Nat × Rat) :=
  let s := (chunk.map Prod.snd).sum
  if s = 0 then chunk else chunk.map fun p => (p.1, p.2 / s)

/-- See `normalizeChunk`. -/
def usdSkelNormalizeWeights (flat : List (Nat × Rat)) (stride : Nat) : List (Nat × Rat) :=
  ((chunksOf stride flat).map normalizeChunk).flatten

/-- Modelled from the spec: `UsdSkelSortInfluences` is an external pxr USD
library routine, absent from this repository; per the spec it sorts each
vertex's influences by descending weight, keeping index/weight paired. -/
def usdSkelSortInfluences (flat : List (Nat × Rat)) (stride : Nat) : List (Nat × Rat) :=
  ((chunksOf stride flat).map fun c => c.mergeSort fun a b => decide (b.2 ≤ a.2)).flatten

/-- The accumulation over all clusters (FbxNodeReader.cpp:815-859), from
the initial state with one empty influence list per control point. -/
def bindAccumOf (rootBoneName : String) (skin : Skin) (controlPointsCount : Nat) : BindAccum :=
  skin.clusters.foldl (processCluster rootBoneName)
    ⟨[], List.replicate controlPointsCount [], 0⟩

/-- `converters::getBindingData` (FbxNodeReader.cpp:808-897).  With zero
clusters the early return yields all-empty arrays and
`SdfPath::EmptyPath()`.  Otherwise the root bone is found from the first
cluster's link (a first cluster without a link dereferences a null pointer
in the source; the model substitutes a dummy bone and the theorems below
assume the link is present), the clusters are accumulated, the per-vertex
lists are flattened with `(0, 0)` padding, and the external normalize/sort
routines run over the flat arrays. -/
def getBindingData (skin : Skin) (controlPointsCount : Nat) : BindingData :=
  if skin.clusters.length = 0 then ⟨[], [], [], 0, []⟩
  else
    let link0 := (skin.clusters.headD ⟨none, []⟩).link.getD ⟨"", []⟩
    let rootBone := findRootBone link0.name link0.ancestors
    let acc := bindAccumOf rootBone.1 skin controlPointsCount
    let flat := (acc.perVertex.map (padRow acc.elementSize)).flatten
    let sorted := usdSkelSortInfluences (usdSkelNormalizeWeights flat acc.elementSize) acc.elementSize
    { names := acc.jointsUsed
      perVertexInfluences := sorted.map Prod.fst
      perVertexWeights := sorted.map Prod.snd
      influencesPerVertex := acc.elementSize
      pathToSkeleton := pathToSkeletonOf rootBone.1 rootBone.2 }

/-- One `FbxAnimCurve`, abstracted to its frame-indexed evaluation
(`FbxAnimCurve::Evaluate` at an integer frame). -/
structure AnimCurve where
  evalAt : Int → Rat

/-- An `FbxAnimCurveNode`: one optional attached curve per channel
(`GetChannelsCount()` is the list length, `GetCurve i` the entry). -/
structure AnimCurveNode where
  channels : List (Option AnimCurve)

/-- A property as the animation sampler sees it: the property itself,
`FbxProperty::IsValid()`, and the result of
`GetAnimationEvaluator()->GetPropertyCurveNode(property, animLayer)` on the
context's animation layer. -/
structure BoundProperty where
  prop : FbxProperty
  isValid : Bool
  curveNode : Option AnimCurveNode

/-- The integer frames `startFrame .. stopFrame` the sampling loops
iterate over (`for frame = start; frame <= stop; ++frame`), empty when
`stopFrame < startFrame`. -/
def frameList (startFrame stopFrame : Int) : List Int :=
  (List.range (stopFrame + 1 - startFrame).toNat).map fun (i : Nat) => startFrame + (i : Int)

/-- The channel vector sampled at one frame: each channel with an attached
curve contributes its evaluation, a channel without a curve keeps the 0.0
its slot was initialized to (FbxNodeReader.cpp:353-379). -/
def channelValuesAt (cn : AnimCurveNode) (frame : Int) : List Rat :=
  cn.channels.map fun och =>
    match och with
    | some cu => cu.evalAt frame
    | none => 0

/-- `helpers::getPropertyAnimation` (property overload,
FbxNodeReader.cpp:314-394): empty when the animation layer is absent, the
property is invalid, it has no curve node on the layer, or no channel has
an attached curve; otherwise one `(time, converted channel vector)` sample
per integer frame of the span, in frame order (the source zips the
per-frame channel rows against the ordered set of time codes, which holds
exactly the frames). -/
def getPropertyAnimation (bp : BoundProperty) (animLayerPresent : Bool)
    (startFrame stopFrame : Int) : List (Rat × VtValue) :=
  if animLayerPresent = false then []
  else if bp.isValid = false then []
  else
    match bp.curveNode with
    | none => []
    | some cn =>
      if (cn.channels.any fun c => c.isSome) = false then []
      else
        (frameList startFrame stopFrame).map fun f =>
          (((f : Int) : Rat), getValueChannels bp.prop.dataType (channelValuesAt cn f))

/-- "The property is curve-bound": it is valid and has a curve node on the
context's animation layer. -/
def isCurveBound (bp : BoundProperty) : Prop :=
  bp.isValid = true ∧ bp.curveNode.isSome

/-- "No channel of the property's curve node has an attached curve"
(vacuously true when there is no curve node). -/
def noAttachedCurve (bp : BoundProperty) : Prop :=
  ∀ cn, bp.curveNode = some cn → ∀ c ∈ cn.channels, c = none

/-- The per-frame scales row of `readSkeletonAnimation`
(FbxNodeReader.cpp:1339-1346): one `GfVec3h(1.0f, 1.0f, 1.0f)` per joint of
the hierarchy, independent of the evaluated transform. -/
def skeletonScalesRow (numJoints : Nat) : List Vec3q :=
  List.replicate numJoints (1, 1, 1)

/-- The scales samples of the per-frame loop of `readSkeletonAnimation`
(FbxNodeReader.cpp:1332-1353): frames `0 .. numFrames` (inclusive, so
`numFrames + 1` samples, where `numFrames` is the span duration's frame
count), each at time `startFrame + frame` and carrying the per-joint scales
row. -/
def scalesSamples (startFrame : Rat) (numFrames numJoints : Nat) : List (Rat × List Vec3q) :=
  (List.range (numFrames + 1)).map fun (f : Nat) => (startFrame + (f : Rat), skeletonScalesRow numJoints)

/-- `hasUniqueScales` (FbxNodeReader.cpp:1358-1361): false exactly when
every sample past the first equals the first sample's value. -/
def hasUniqueScales (samples : List (Rat × List Vec3q)) : Bool :=
  !((samples.drop 1).all fun tup => decide (tup.2 = (samples.headD (0, [])).2))

/-- The authored scales property: a bare default plus optional time
samples. -/
structure ScalesProp where
  defaultValue : List Vec3q
  timeSamples : List (Rat × List Vec3q)
deriving DecidableEq, Repr

/-- The scales authoring of `readSkeletonAnimation`
(FbxNodeReader.cpp:1383-1392): the default is always the first sample's
value, and the time-sample list is attached only when `hasUniqueScales`. -/
def readSkeletonAnimationScales (startFrame : Rat) (numFrames numJoints : Nat) : ScalesProp :=
  let scales := scalesSamples startFrame numFrames numJoints
  { defaultValue := (scales.headD (0, [])).2
    timeSamples := if hasUniqueScales scales then scales else [] }

/-- `FbxCamera::EProjectionType`. -/
inductive ProjectionType where
  | ePerspective
  | eOrthogonal
deriving DecidableEq, Repr

/-- An `FbxCamera` as `readCamera` consumes it.  `relativeToMM` models the
scene-unit factor `helpers::toOneTenthOfScene` multiplies by (the
conversion factor of the scene's system unit to millimetres, derived from
`FbxSystemUnit`); dimensions are `Rat` payloads. -/
structure Camera where
  focalLength : Rat
  focusDistance : Rat
  filmWidth : Rat
  filmHeight : Rat
  filmSqueezeRatio : Rat
  nearPlane : Rat
  farPlane : Rat
  fieldOfView : Rat
  projectionType : ProjectionType
  useDepthOfField : Bool
  relativeToMM : Rat
deriving DecidableEq, Repr

/-- `helpers::MM_PER_INCH`. -/
def MM_PER_INCH : Rat := 254 / 10

/-- `helpers::toOneTenthOfScene` (FbxNodeReader.cpp:423-428). -/
def toOneTenthOfScene (value : Rat) (relativeToMM : Rat) : Rat :=
  value * relativeToMM

/-- `converters::cameraApertureWidth` (FbxNodeReader.cpp:688-693). -/
def cameraApertureWidth (c : Camera) : Rat :=
  toOneTenthOfScene (c.filmWidth * c.filmSqueezeRatio * MM_PER_INCH) c.relativeToMM

/-- `converters::cameraApertureHeight` (FbxNodeReader.cpp:681-686). -/
def cameraApertureHeight (c : Camera) : Rat :=
  toOneTenthOfScene (c.filmHeight * c.filmSqueezeRatio * MM_PER_INCH) c.relativeToMM

/-- `converters::cameraProjectionMode` (FbxNodeReader.cpp:695-705). -/
def cameraProjectionMode (c : Camera) : String :=
  match c.projectionType with
  | .ePerspective => "perspective"
  | .eOrthogonal => "orthographic"

/-- `converters::cameraFocalLength` at the default time with scaling on,
as `readCamera` calls it (FbxNodeReader.cpp:712-719, 977-982). -/
def cameraFocalLength (c : Camera) : Rat :=
  toOneTenthOfScene c.focalLength c.relativeToMM

/-- `readCamera` (FbxNodeReader.cpp:964-1034), reduced to the ordered
(property name, default value) pairs it creates.  A node whose attribute is
not a camera returns after setting the prim type, creating no properties;
the `fStop` property is created only under `camera->UseDepthOfField`, with
the fixed value `0.0f`. -/
def readCamera (attr : Option Camera) : List (String × VtValue) :=
  match attr with
  | none => []
  | some c =>
    [("focalLength", VtValue.float (cameraFocalLength c)),
     ("focusDistance", VtValue.float c.focusDistance),
     ("horizontalAperture", VtValue.float (cameraApertureWidth c)),
     ("verticalAperture", VtValue.float (cameraApertureHeight c)),
     ("projection", VtValue.token (cameraProjectionMode c))]
    ++ (if c.useDepthOfField then [("fStop", VtValue.float 0)] else [])
    ++ [("clippingRange", VtValue.vec2f c.nearPlane c.farPlane),
        ("generated:fov", VtValue.float c.fieldOfView)]

/-- A per-polygon-vertex, direct-addressed layer element over the given
values (a matching element for the normals/tangents selection). -/
def perPVDirectElem (vals : List Vec3q) : LayerElementData :=
  { mappingMode := .eByPolygonVertex, referenceMode := .eDirect,
    directArray := vals, indexArray := [] }

/-- A per-control-point, direct-addressed layer element over the given
values (a matching element for the vertex-color selection). -/
def byCPDirectElem (vals : List Vec3q) : LayerElementData :=
  { mappingMode := .eByControlPoint, referenceMode := .eDirect,
    directArray := vals, indexArray := [] }

/-- A one-polygon, one-vertex, one-control-point test mesh over the given
layers, without a node-level normals fallback. -/
def mkTestMesh (layers : List Layer) : Mesh :=
  { layers := layers, polygonSizes := [1], controlPointsCount := 1,
    polygonVertexNormal := fun _ _ => none }

/-- The largest length among the per-control-point influence lists. -/
def maxLen (pv : List (List (Nat × Rat))) : Nat :=
  pv.foldr (fun r m => max r.length m) 0

/-- The root-bone name `getBindingData` computes from the first cluster's
link (see `findRootBone`). -/
def rootNameOf (skin : Skin) : String :=
  (findRootBone ((skin.clusters.headD ⟨none, []⟩).link.getD ⟨"", []⟩).name
    ((skin.clusters.headD ⟨none, []⟩).link.getD ⟨"", []⟩).ancestors).1

/-- The flat, padded, normalized and sorted (index, weight) array
`getBindingData` builds in its non-degenerate branch, before it is split
into the index and weight columns. -/
def sortedFlatOf (skin : Skin) (cpc : Nat) : List (Nat × Rat) :=
  let acc := bindAccumOf (rootNameOf skin) skin cpc
  usdSkelSortInfluences
    (usdSkelNormalizeWeights ((acc.perVertex.map (padRow acc.elementSize)).flatten)
      acc.elementSize)
    acc.elementSize

/-- A concrete two-cluster skin over two control points: joint `A` (at the
root) weights both points, its child joint `B` weights the first point. -/
def skinFixture : Skin :=
  ⟨[⟨some ⟨"A", []⟩, [(0, 1), (1, 2)]⟩, ⟨some ⟨"B", [⟨"A", true⟩]⟩, [(0, 3)]⟩]⟩

/-- A concrete curve-bound property: a float property with one attached
curve evaluating each frame to its frame number. -/
def boundPropFixture : BoundProperty :=
  { prop := { dataType := FbxDataType.eFbxFloat }
    isValid := true
    curveNode := some { channels := [some { evalAt := fun f => (f : Rat) }] } }

/-- The invariant the cluster loop maintains: one influence list per
control point, `elementSize` equal to the largest list length, and only
positive recorded weights (given positive cluster weights). -/
def BindInv (cpc : Nat) (acc : BindAccum) : Prop :=
  acc.perVertex.length = cpc
  ∧ acc.elementSize = maxLen acc.perVertex
  ∧ ∀ r ∈ acc.perVertex, ∀ q ∈ r, 0 < q.2

theorem truncQ_intCast (c : Int) : truncQ (c : Rat) = c := by
  unfold truncQ
  split <;> simp

/-- C1 (corrected): for every source property type tag other than
`eFbxTime` and `eFbxDistance`, default-value extraction and channel-array
extraction produce values of the same dynamic target type. -/
theorem getValue_type_agrees_with_channels (p : FbxProperty) (channels : List Rat)
    (ht : p.dataType ≠ FbxDataType.eFbxTime) (hd : p.dataType ≠ FbxDataType.eFbxDistance) :
    vtType (getValue p) = vtType (getValueChannels p.dataType channels) := by
  cases h : p.dataType <;>
    simp_all [getValue, getValueChannels, vtType]

/-- C1 witness: the theorem applied to a concrete boolean property. -/
theorem getValue_type_agrees_with_channels_witness :
    vtType (getValue { dataType := FbxDataType.eFbxBool, boolVal := true })
      = vtType (getValueChannels FbxDataType.eFbxBool [1]) :=
  getValue_type_agrees_with_channels
    { dataType := FbxDataType.eFbxBool, boolVal := true } [1] (by decide) (by decide)

/-- C1 counterexample: at the tag `eFbxTime` the default path produces a
time-code value while the channel-array path produces the sentinel token,
so the two target types differ. -/
theorem getValue_type_disagrees_at_time :
    vtType (getValue { dataType := FbxDataType.eFbxTime, timeVal := 3 }) = VtType.timeCodeT
    ∧ vtType (getValueChannels FbxDataType.eFbxTime [3]) = VtType.tokenT
    ∧ VtType.timeCodeT ≠ VtType.tokenT :=
  ⟨rfl, rfl, by decide⟩

/-- C4 (corrected): 16-bit integers widen to the 32-bit signed/unsigned
target types with the stored value preserved, but both `eFbxChar` and
`eFbxUChar` map to the 8-bit unsigned target type `UChar` (a signed char's
value is cast mod 256, not widened); half, float and double pass through
unchanged. -/
theorem value_type_mapper_widening (p : FbxProperty) :
    (getSdfTypeName FbxDataType.eFbxChar = SdfTy.UChar
      ∧ getSdfTypeName FbxDataType.eFbxUChar = SdfTy.UChar
      ∧ getSdfTypeName FbxDataType.eFbxShort = SdfTy.Int
      ∧ getSdfTypeName FbxDataType.eFbxUShort = SdfTy.UInt
      ∧ getSdfTypeName FbxDataType.eFbxHalfFloat = SdfTy.Half
      ∧ getSdfTypeName FbxDataType.eFbxFloat = SdfTy.Float
      ∧ getSdfTypeName FbxDataType.eFbxDouble = SdfTy.Double)
    ∧ (p.dataType = FbxDataType.eFbxShort → getValue p = VtValue.int32 p.intVal)
    ∧ (p.dataType = FbxDataType.eFbxUShort → getValue p = VtValue.uint32 p.intVal)
    ∧ (p.dataType = FbxDataType.eFbxChar → getValue p = VtValue.uint8 (p.intVal.emod 256))
    ∧ (p.dataType = FbxDataType.eFbxUChar → getValue p = VtValue.uint8 p.intVal)
    ∧ (p.dataType = FbxDataType.eFbxHalfFloat → getValue p = VtValue.half p.realVal)
    ∧ (p.dataType = FbxDataType.eFbxFloat → getValue p = VtValue.float p.realVal)
    ∧ (p.dataType = FbxDataType.eFbxDouble → getValue p = VtValue.double p.realVal) := by
  refine ⟨⟨rfl, rfl, rfl, rfl, rfl, rfl, rfl⟩, ?_, ?_, ?_, ?_, ?_, ?_, ?_⟩ <;>
    · intro h
      simp [getValue, h]

/-- C4 witness: the theorem applied to concrete short and char
properties. -/
theorem value_type_mapper_widening_witness :
    getValue { dataType := FbxDataType.eFbxShort, intVal := -32768 } = VtValue.int32 (-32768)
    ∧ getValue { dataType := FbxDataType.eFbxChar, intVal := -1 }
        = VtValue.uint8 ((-1 : Int).emod 256) :=
  ⟨(value_type_mapper_widening { dataType := FbxDataType.eFbxShort, intVal := -32768 }).2.1 rfl,
   (value_type_mapper_widening { dataType := FbxDataType.eFbxChar, intVal := -1 }).2.2.2.1 rfl⟩

/-- C4 counterexample: a signed char source is mapped to the 8-bit
unsigned target type `UChar`, not to the 32-bit signed type, and its
value `-1` becomes `255` rather than being widened. -/
theorem char_not_widened_to_int32 :
    getSdfTypeName FbxDataType.eFbxChar = SdfTy.UChar
    ∧ SdfTy.UChar ≠ SdfTy.Int
    ∧ getValue { dataType := FbxDataType.eFbxChar, intVal := -1 } = VtValue.uint8 255 :=
  ⟨rfl, by decide, by decide⟩

/-- C9: a signed 8-bit char property converts, on the default path and on
the channel path, to its value taken mod 256 (an unsigned 8-bit
reinterpretation), so negative char values wrap around. -/
theorem char_conversion_wraps (p : FbxProperty) (c : Int)
    (h : p.dataType = FbxDataType.eFbxChar) :
    getValue p = VtValue.uint8 (p.intVal.emod 256)
    ∧ 0 ≤ p.intVal.emod 256
    ∧ p.intVal.emod 256 < 256
    ∧ getValueChannels FbxDataType.eFbxChar [(c : Rat)] = VtValue.uint8 (c.emod 256) := by
  refine ⟨by simp [getValue, h], Int.emod_nonneg _ (by decide), ?_, ?_⟩
  · exact Int.emod_lt_of_pos _ (by decide)
  · simp [getValueChannels, chanAt, truncQ_intCast]

/-- C9 witness: the theorem applied to a concrete char property of value
`-1`, and a channel value `-5`. -/
theorem char_conversion_wraps_witness :
    getValue { dataType := FbxDataType.eFbxChar, intVal := -1 }
      = VtValue.uint8 ((-1 : Int).emod 256)
    ∧ 0 ≤ (-1 : Int).emod 256
    ∧ (-1 : Int).emod 256 < 256
    ∧ getValueChannels FbxDataType.eFbxChar [((-5 : Int) : Rat)]
        = VtValue.uint8 ((-5 : Int).emod 256) :=
  char_conversion_wraps { dataType := FbxDataType.eFbxChar, intVal := -1 } (-5) rfl

/-- C10: `readCamera` creates an `fStop` property exactly when the
camera's `UseDepthOfField` flag is set, and its value is then exactly 0. -/
theorem fStop_iff_depth_of_field (cam : Camera) :
    (readCamera (some cam)).lookup "fStop"
      = (if cam.useDepthOfField then some (VtValue.float 0) else none)
    ∧ ((readCamera (some cam)).lookup "fStop" ≠ none ↔ cam.useDepthOfField = true) := by
  cases h : cam.useDepthOfField <;>
    simp [readCamera, h, List.lookup]

/-- C10 witness: the theorem applied to a concrete depth-of-field camera. -/
theorem fStop_iff_depth_of_field_witness :
    (readCamera (some
        { focalLength := 50, focusDistance := 100, filmWidth := 1, filmHeight := 1,
          filmSqueezeRatio := 1, nearPlane := 1, farPlane := 1000, fieldOfView := 40,
          projectionType := ProjectionType.ePerspective, useDepthOfField := true,
          relativeToMM := 1 })).lookup "fStop"
      = (if true then some (VtValue.float 0) else none)
    ∧ ((readCamera (some
        { focalLength := 50, focusDistance := 100, filmWidth := 1, filmHeight := 1,
          filmSqueezeRatio := 1, nearPlane := 1, farPlane := 1000, fieldOfView := 40,
          projectionType := ProjectionType.ePerspective, useDepthOfField := true,
          relativeToMM := 1 })).lookup "fStop" ≠ none ↔ true = true) :=
  fStop_iff_depth_of_field _

theorem scalesSamples_headD (startFrame : Rat) (numFrames numJoints : Nat) :
    ((scalesSamples startFrame numFrames numJoints).headD (0, [])).2
      = skeletonScalesRow numJoints := by
  simp [scalesSamples, List.range_succ_eq_map]

theorem scalesSamples_snd (startFrame : Rat) (numFrames numJoints : Nat) :
    ∀ smp ∈ scalesSamples startFrame numFrames numJoints,
      smp.2 = skeletonScalesRow numJoints := by
  intro smp hm
  simp only [scalesSamples, List.mem_map] at hm
  obtain ⟨f, -, rfl⟩ := hm
  rfl

theorem hasUniqueScales_false (startFrame : Rat) (numFrames numJoints : Nat) :
    hasUniqueScales (scalesSamples startFrame numFrames numJoints) = false := by
  have hall : ((scalesSamples startFrame numFrames numJoints).drop 1).all
      (fun tup => decide (tup.2 = ((scalesSamples startFrame numFrames numJoints).headD (0, [])).2))
      = true := by
    rw [List.all_eq_true]
    intro tup hm
    have h1 := scalesSamples_snd startFrame numFrames numJoints tup (List.mem_of_mem_drop hm)
    rw [scalesSamples_headD]
    simp [h1]
  unfold hasUniqueScales
  rw [hall]
  rfl

/-- C8: the skeleton-animation sampler emits one scales sample per frame
of the inclusive range (`numFrames + 1` samples); every sampled scales
value equals the first frame's value, and accordingly the scales property
is authored with the first sample as its bare default and zero time
samples. -/
theorem scales_collapse_to_default (startFrame : Rat) (numFrames numJoints : Nat) :
    (scalesSamples startFrame numFrames numJoints).length = numFrames + 1
    ∧ (∀ smp ∈ scalesSamples startFrame numFrames numJoints,
        smp.2 = ((scalesSamples startFrame numFrames numJoints).headD (0, [])).2)
    ∧ (readSkeletonAnimationScales startFrame numFrames numJoints).defaultValue
        = ((scalesSamples startFrame numFrames numJoints).headD (0, [])).2
    ∧ (readSkeletonAnimationScales startFrame numFrames numJoints).timeSamples = [] := by
  refine ⟨by unfold scalesSamples; rw [List.length_map, List.length_range], ?_, rfl, ?_⟩
  · intro smp hm
    rw [scalesSamples_headD]
    exact scalesSamples_snd startFrame numFrames numJoints smp hm
  · simp [readSkeletonAnimationScales, hasUniqueScales_false]

/-- C8 witness: the theorem applied to frames `[0, 10]` of a two-joint
hierarchy (11 samples, collapsed to a bare default). -/
theorem scales_collapse_to_default_witness :
    (scalesSamples 0 10 2).length = 10 + 1
    ∧ (∀ smp ∈ scalesSamples 0 10 2, smp.2 = ((scalesSamples 0 10 2).headD (0, [])).2)
    ∧ (readSkeletonAnimationScales 0 10 2).defaultValue = ((scalesSamples 0 10 2).headD (0, [])).2
    ∧ (readSkeletonAnimationScales 0 10 2).timeSamples = [] :=
  scales_collapse_to_default 0 10 2

theorem collectSkeletonChildren_append (ancestors : List String) (l1 l2 : List FbxNodeT) :
    collectSkeletonChildren ancestors (l1 ++ l2)
      = collectSkeletonChildren ancestors l1 ++ collectSkeletonChildren ancestors l2 := by
  induction l1 with
  | nil => simp [collectSkeletonChildren]
  | cons c cs ih => simp [collectSkeletonChildren, ih]

theorem collectSkeletonChildrenWarnings_append (l1 l2 : List FbxNodeT) :
    collectSkeletonChildrenWarnings (l1 ++ l2)
      = collectSkeletonChildrenWarnings l1 ++ collectSkeletonChildrenWarnings l2 := by
  induction l1 with
  | nil => simp [collectSkeletonChildrenWarnings]
  | cons c cs ih => simp [collectSkeletonChildrenWarnings, ih]

/-- C5: on the joint chain `A (root) → B → C` the assigned path tokens are
`A`, `A/B` and `A/B/C`; and a non-joint child of a node inside a joint
hierarchy is excluded from the collected joint list together with its
entire subtree (removing it changes nothing), while its name is reported
in a warning. -/
theorem joint_paths_and_nonjoint_exclusion
    (n : String) (a : Option AttrKind) (l1 l2 : List FbxNodeT) (c : FbxNodeT)
    (hc : isSkeletonNode c = false) :
    skeletonHierarchyToTokenList
        (collectSkeletonHierarchy []
          (.node "A" (some .eSkeleton)
            [.node "B" (some .eSkeleton) [.node "C" (some .eSkeleton) []]]))
      = [["A"], ["A", "B"], ["A", "B", "C"]]
    ∧ collectSkeletonHierarchy [] (.node n a (l1 ++ c :: l2))
        = collectSkeletonHierarchy [] (.node n a (l1 ++ l2))
    ∧ c.name ∈ collectSkeletonWarnings (.node n a (l1 ++ c :: l2)) := by
  refine ⟨?_, ?_, ?_⟩
  · simp [skeletonHierarchyToTokenList, collectSkeletonHierarchy, collectSkeletonChildren,
      isSkeletonNode, skeletonToTokenPath, skeletonToTokenLoop]
  · simp [collectSkeletonHierarchy, collectSkeletonChildren_append, collectSkeletonChildren, hc]
  · simp [collectSkeletonWarnings, collectSkeletonChildrenWarnings_append,
      collectSkeletonChildrenWarnings, hc]

/-- C5 witness: the theorem applied to a concrete hierarchy whose root has
a joint child and a non-joint child. -/
theorem joint_paths_and_nonjoint_exclusion_witness :
    skeletonHierarchyToTokenList
        (collectSkeletonHierarchy []
          (.node "A" (some .eSkeleton)
            [.node "B" (some .eSkeleton) [.node "C" (some .eSkeleton) []]]))
      = [["A"], ["A", "B"], ["A", "B", "C"]]
    ∧ collectSkeletonHierarchy []
        (.node "R" (some AttrKind.eSkeleton)
          ([FbxNodeT.node "J" (some AttrKind.eSkeleton) []]
            ++ FbxNodeT.node "X" none [FbxNodeT.node "Y" (some AttrKind.eSkeleton) []] :: []))
        = collectSkeletonHierarchy []
            (.node "R" (some AttrKind.eSkeleton)
              ([FbxNodeT.node "J" (some AttrKind.eSkeleton) []] ++ []))
    ∧ (FbxNodeT.node "X" none [FbxNodeT.node "Y" (some AttrKind.eSkeleton) []]).name
        ∈ collectSkeletonWarnings
            (.node "R" (some AttrKind.eSkeleton)
              ([FbxNodeT.node "J" (some AttrKind.eSkeleton) []]
                ++ FbxNodeT.node "X" none [FbxNodeT.node "Y" (some AttrKind.eSkeleton) []] :: [])) :=
  joint_paths_and_nonjoint_exclusion "R" (some AttrKind.eSkeleton)
    [FbxNodeT.node "J" (some AttrKind.eSkeleton) []] []
    (FbxNodeT.node "X" none [FbxNodeT.node "Y" (some AttrKind.eSkeleton) []]) rfl

theorem getLast?_cons_eq_or {α : Type} (a : α) (t : List α) :
    (a :: t).getLast? = (t.getLast?).or (some a) := by
  cases t with
  | nil => rfl
  | cons b t' =>
    rw [List.getLast?_cons_cons]
    have hs : (b :: t').getLast?.isSome := by
      rw [List.getLast?_isSome]
      exact List.cons_ne_nil b t'
    obtain ⟨y, hy⟩ := Option.isSome_iff_exists.mp hs
    rw [hy, Option.or_some]

theorem foldl_overwrite_eq_getLast
    (g : Layer → Option LayerElementData) (p : LayerElementData → Bool) (ls : List Layer) :
    ∀ init : Option LayerElementData,
      ls.foldl (fun acc l => pickLayerElement p acc (g l)) init
        = ((ls.filterMap fun l => matchedLayerElement p (g l)).getLast?).or init := by
  induction ls with
  | nil => intro init; simp
  | cons l ls ih =>
    intro init
    rw [List.foldl_cons]
    cases hg : g l with
    | none =>
      have hstep : pickLayerElement p init none = init := rfl
      have hmatch : matchedLayerElement p (g l) = none := by rw [hg]; rfl
      rw [hstep,
        @List.filterMap_cons_none _ _ (fun l => matchedLayerElement p (g l)) l ls hmatch]
      exact ih init
    | some e =>
      by_cases hp : p e = true
      · have hstep : pickLayerElement p init (some e) = some e := by
          simp [pickLayerElement, hp]
        have hmatch : matchedLayerElement p (g l) = some e := by
          rw [hg]; simp [matchedLayerElement, hp]
        rw [hstep,
          @List.filterMap_cons_some _ _ (fun l => matchedLayerElement p (g l)) l ls e hmatch,
          ih (some e), getLast?_cons_eq_or, Option.or_assoc, Option.or_some]
      · simp only [Bool.not_eq_true] at hp
        have hstep : pickLayerElement p init (some e) = init := by
          simp [pickLayerElement, hp]
        have hmatch : matchedLayerElement p (g l) = none := by
          rw [hg]; simp [matchedLayerElement, hp]
        rw [hstep,
          @List.filterMap_cons_none _ _ (fun l => matchedLayerElement p (g l)) l ls hmatch]
        exact ih init

/-- C2 (corrected): the three layer-selection loops have no early exit, so
for each semantic it is the LAST layer whose element passes the semantic's
matching test that is used; replacing the layer stack by just that last
matching element leaves the converter's output value sequence unchanged. -/
theorem last_matching_layer_wins (m : Mesh) (e : LayerElementData) :
    selectNormalsElement m.layers = (normalsMatches m.layers).getLast?
    ∧ selectTangentsElement m.layers = (tangentsMatches m.layers).getLast?
    ∧ selectVertexColorsElement m.layers = (vertexColorsMatches m.layers).getLast?
    ∧ ((normalsMatches m.layers).getLast? = some e →
        meshNormals m
          = meshNormalsParse
              { m with layers := [{ normals := some e }] } (some e))
    ∧ ((tangentsMatches m.layers).getLast? = some e →
        meshTangents m = meshTangentsParse { m with layers := [{ tangents := some e }] } e)
    ∧ ((vertexColorsMatches m.layers).getLast? = some e →
        meshVertexColors m
          = (List.range m.controlPointsCount).map fun i => e.directArray.getD i (0, 0, 0)) := by
  have hn : selectNormalsElement m.layers = (normalsMatches m.layers).getLast? := by
    have := foldl_overwrite_eq_getLast (fun l : Layer => l.normals)
      perPolygonVertexMatch m.layers none
    rw [Option.or_none] at this
    exact this
  have ht : selectTangentsElement m.layers = (tangentsMatches m.layers).getLast? := by
    have := foldl_overwrite_eq_getLast (fun l : Layer => l.tangents)
      perPolygonVertexMatch m.layers none
    rw [Option.or_none] at this
    exact this
  have hv : selectVertexColorsElement m.layers = (vertexColorsMatches m.layers).getLast? := by
    have := foldl_overwrite_eq_getLast (fun l : Layer => l.vertexColors)
      vertexColorMatch m.layers none
    rw [Option.or_none] at this
    exact this
  refine ⟨hn, ht, hv, ?_, ?_, ?_⟩
  · intro hlast
    unfold meshNormals
    rw [hn, hlast]
    rfl
  · intro hlast
    unfold meshTangents
    rw [ht, hlast]
    rfl
  · intro hlast
    unfold meshVertexColors
    rw [hv, hlast]

/-- C2 witness: the theorem applied to a one-layer mesh carrying all three
semantics, each hypothesis discharged by computation. -/
theorem last_matching_layer_wins_witness :
    meshNormals (mkTestMesh [{ normals := some (perPVDirectElem [(1, 0, 0)]),
                               tangents := some (perPVDirectElem [(2, 0, 0)]),
                               vertexColors := some (byCPDirectElem [(3, 0, 0)]) }])
      = meshNormalsParse
          { mkTestMesh [{ normals := some (perPVDirectElem [(1, 0, 0)]),
                          tangents := some (perPVDirectElem [(2, 0, 0)]),
                          vertexColors := some (byCPDirectElem [(3, 0, 0)]) }] with
            layers := [{ normals := some (perPVDirectElem [(1, 0, 0)]) }] }
          (some (perPVDirectElem [(1, 0, 0)]))
    ∧ meshTangents (mkTestMesh [{ normals := some (perPVDirectElem [(1, 0, 0)]),
                                  tangents := some (perPVDirectElem [(2, 0, 0)]),
                                  vertexColors := some (byCPDirectElem [(3, 0, 0)]) }])
        = meshTangentsParse
            { mkTestMesh [{ normals := some (perPVDirectElem [(1, 0, 0)]),
                            tangents := some (perPVDirectElem [(2, 0, 0)]),
                            vertexColors := some (byCPDirectElem [(3, 0, 0)]) }] with
              layers := [{ tangents := some (perPVDirectElem [(2, 0, 0)]) }] }
            (perPVDirectElem [(2, 0, 0)])
    ∧ meshVertexColors (mkTestMesh [{ normals := some (perPVDirectElem [(1, 0, 0)]),
                                      tangents := some (perPVDirectElem [(2, 0, 0)]),
                                      vertexColors := some (byCPDirectElem [(3, 0, 0)]) }])
        = (List.range (mkTestMesh [{ normals := some (perPVDirectElem [(1, 0, 0)]),
                                     tangents := some (perPVDirectElem [(2, 0, 0)]),
                                     vertexColors := some (byCPDirectElem [(3, 0, 0)]) }]).controlPointsCount).map
            fun i => (byCPDirectElem [(3, 0, 0)]).directArray.getD i (0, 0, 0) :=
  ⟨(last_matching_layer_wins _ (perPVDirectElem [(1, 0, 0)])).2.2.2.1 rfl,
   (last_matching_layer_wins _ (perPVDirectElem [(2, 0, 0)])).2.2.2.2.1 rfl,
   (last_matching_layer_wins _ (byCPDirectElem [(3, 0, 0)])).2.2.2.2.2 rfl⟩

/-- C2 counterexample: with two matching normals layers the converter's
output comes from the second (later) layer, so a later matching layer does
affect the output value sequence and the first matching layer is not the
one used. -/
theorem later_matching_layer_affects_normals :
    meshNormals (mkTestMesh [{ normals := some (perPVDirectElem [(1, 0, 0)]) },
                             { normals := some (perPVDirectElem [(2, 0, 0)]) }])
      = [(2, 0, 0)]
    ∧ meshNormals (mkTestMesh [{ normals := some (perPVDirectElem [(1, 0, 0)]) }])
        = [(1, 0, 0)]
    ∧ ([((2 : Rat), (0 : Rat), (0 : Rat))] : List Vec3q) ≠ [(1, 0, 0)] :=
  ⟨rfl, rfl, by decide⟩

/-- C3 (corrected): a skin with zero clusters yields all-empty
joint-name/index/weight arrays, `influencesPerVertex = 0` and the EMPTY
skeleton path (`SdfPath::EmptyPath()`, not the scene root); and a cluster
whose link is absent is skipped entirely: removing it from the cluster
list (anywhere after the first cluster) leaves the whole binding data —
including the `elementSize` bookkeeping — unchanged. -/
theorem bindingData_zero_clusters_and_unattached_skip
    (n cpc : Nat) (l1 l2 : List Cluster) (c : Cluster)
    (hlink : c.link = none) (hne : l1 ≠ []) :
    getBindingData ⟨[]⟩ n = ⟨[], [], [], 0, []⟩
    ∧ getBindingData ⟨l1 ++ c :: l2⟩ cpc = getBindingData ⟨l1 ++ l2⟩ cpc := by
  constructor
  · rfl
  · have hcl1 : (⟨l1 ++ c :: l2⟩ : Skin).clusters = l1 ++ c :: l2 := rfl
    have hcl2 : (⟨l1 ++ l2⟩ : Skin).clusters = l1 ++ l2 := rfl
    have hlen1 : ¬(l1 ++ c :: l2).length = 0 := by simp
    have hlen2 : ¬(l1 ++ l2).length = 0 := by
      cases l1 with
      | nil => exact absurd rfl hne
      | cons a t => simp
    have hheadD : (l1 ++ c :: l2).headD ⟨none, []⟩ = (l1 ++ l2).headD ⟨none, []⟩ := by
      cases l1 with
      | nil => exact absurd rfl hne
      | cons a t => simp
    have hacc : ∀ r : String,
        bindAccumOf r ⟨l1 ++ c :: l2⟩ cpc = bindAccumOf r ⟨l1 ++ l2⟩ cpc := by
      intro r
      unfold bindAccumOf
      rw [hcl1, hcl2, List.foldl_append, List.foldl_append, List.foldl_cons]
      have hskip :
          processCluster r (l1.foldl (processCluster r) ⟨[], List.replicate cpc [], 0⟩) c
            = l1.foldl (processCluster r) ⟨[], List.replicate cpc [], 0⟩ := by
        unfold processCluster
        rw [hlink]
      rw [hskip]
    unfold getBindingData
    rw [hcl1, hcl2, if_neg hlen1, if_neg hlen2, hheadD]
    simp only [hacc]

/-- C3 witness: the theorem applied to a skin whose second cluster has no
link. -/
theorem bindingData_zero_clusters_and_unattached_skip_witness :
    getBindingData ⟨[]⟩ 5 = ⟨[], [], [], 0, []⟩
    ∧ getBindingData
        ⟨[⟨some ⟨"J", []⟩, [(0, 1)]⟩] ++ (⟨none, [(0, 1)]⟩ : Cluster) :: []⟩ 1
        = getBindingData ⟨[⟨some ⟨"J", []⟩, [(0, 1)]⟩] ++ []⟩ 1 :=
  bindingData_zero_clusters_and_unattached_skip 5 1
    [⟨some ⟨"J", []⟩, [(0, 1)]⟩] [] ⟨none, [(0, 1)]⟩ rfl (List.cons_ne_nil _ _)

/-- C3 counterexample: with zero clusters the returned skeleton path is
the empty path, not the scene root `/ROOT`; and a linkless cluster that
weights the same control point as a linked one does NOT enter the
`elementSize` bookkeeping: `influencesPerVertex` is 1, not 2. -/
theorem zero_clusters_path_not_scene_root :
    (getBindingData ⟨[]⟩ 1).pathToSkeleton = []
    ∧ ([] : List String) ≠ ["ROOT"]
    ∧ (getBindingData ⟨[⟨some ⟨"J", []⟩, [(0, 1)]⟩, ⟨none, [(0, 1 / 2)]⟩]⟩ 1).influencesPerVertex
        = 1
    ∧ (1 : Nat) ≠ 2 :=
  ⟨rfl, by decide, rfl, by decide⟩

theorem frameList_length (s t : Int) (hst : s ≤ t) :
    (frameList s t).length = (t - s).toNat + 1 := by
  unfold frameList
  rw [List.length_map, List.length_range]
  omega

theorem frameList_cast_pairwise (s t : Int) :
    ((frameList s t).map fun f => ((f : Int) : Rat)).Pairwise (· < ·) := by
  unfold frameList
  rw [List.map_map]
  refine List.Pairwise.map _ ?_ (List.pairwise_lt_range _)
  intro a b hab
  simp only [Function.comp]
  have : s + (a : Int) < s + (b : Int) := by omega
  exact_mod_cast this

/-- C6: over an inclusive frame range `[s, t]` the animation sampler
returns exactly one sample per integer frame — `t - s + 1` samples whose
times are the frames in strictly increasing order — and it returns the
empty sequence exactly when the animation layer is absent, the property is
not curve-bound, or no channel of the property's curve node has an
attached curve. -/
theorem animation_one_sample_per_frame (bp : BoundProperty) (layer : Bool) (s t : Int)
    (hst : s ≤ t) :
    (getPropertyAnimation bp layer s t = []
      ↔ layer = false ∨ ¬isCurveBound bp ∨ noAttachedCurve bp)
    ∧ (getPropertyAnimation bp layer s t ≠ [] →
        (getPropertyAnimation bp layer s t).length = (t - s).toNat + 1
        ∧ (getPropertyAnimation bp layer s t).map Prod.fst
            = (frameList s t).map (fun f => ((f : Int) : Rat))
        ∧ ((getPropertyAnimation bp layer s t).map Prod.fst).Pairwise (· < ·)) := by
  cases hl : layer with
  | false =>
    have hres : getPropertyAnimation bp false s t = [] := by
      unfold getPropertyAnimation
      simp
    refine ⟨by simp [hres], ?_⟩
    intro hne
    exact absurd hres hne
  | true =>
    cases hv : bp.isValid with
    | false =>
      have hres : getPropertyAnimation bp true s t = [] := by
        unfold getPropertyAnimation
        simp [hv]
      have hnb : ¬isCurveBound bp := by
        intro hcb
        rw [isCurveBound, hv] at hcb
        exact Bool.noConfusion hcb.1
      refine ⟨by simp [hres, hnb], ?_⟩
      intro hne
      exact absurd hres hne
    | true =>
      cases hcn : bp.curveNode with
      | none =>
        have hres : getPropertyAnimation bp true s t = [] := by
          unfold getPropertyAnimation
          simp [hv, hcn]
        have hnb : ¬isCurveBound bp := by
          intro hcb
          rw [isCurveBound, hcn] at hcb
          exact Bool.noConfusion hcb.2
        refine ⟨by simp [hres, hnb], ?_⟩
        intro hne
        exact absurd hres hne
      | some cn =>
        cases hany : cn.channels.any fun c => c.isSome with
        | false =>
          have hres : getPropertyAnimation bp true s t = [] := by
            unfold getPropertyAnimation
            simp [hv, hcn, hany]
          have hnac : noAttachedCurve bp := by
            intro cn' hcn' ch hch
            rw [hcn] at hcn'
            cases hcn'
            have := List.any_eq_false.mp hany ch hch
            cases ch with
            | none => rfl
            | some cu => simp at this
          refine ⟨by simp [hres, hnac], ?_⟩
          intro hne
          exact absurd hres hne
        | true =>
          have hres : getPropertyAnimation bp true s t
              = (frameList s t).map fun f =>
                  (((f : Int) : Rat), getValueChannels bp.prop.dataType (channelValuesAt cn f)) := by
            unfold getPropertyAnimation
            simp [hv, hcn, hany]
          have hlen : (getPropertyAnimation bp true s t).length = (t - s).toNat + 1 := by
            rw [hres, List.length_map, ← frameList_length s t hst]
          have hne : getPropertyAnimation bp true s t ≠ [] := by
            intro hnil
            rw [hnil] at hlen
            simp at hlen
          have hfst : (getPropertyAnimation bp true s t).map Prod.fst
              = (frameList s t).map fun f => ((f : Int) : Rat) := by
            rw [hres, List.map_map]
            rfl
          have hrhs : ¬(true = false ∨ ¬isCurveBound bp ∨ noAttachedCurve bp) := by
            rintro (hfalse | hnb | hnac)
            · exact Bool.noConfusion hfalse
            · exact hnb ⟨hv, by rw [hcn]; rfl⟩
            · obtain ⟨ch, hch, hchs⟩ := List.any_eq_true.mp hany
              have := hnac cn hcn ch hch
              rw [this] at hchs
              simp at hchs
          refine ⟨iff_of_false hne hrhs, ?_⟩
          intro _
          exact ⟨hlen, hfst, by rw [hfst]; exact frameList_cast_pairwise s t⟩

theorem maxLen_cons (a : List (Nat × Rat)) (t : List (List (Nat × Rat))) :
    maxLen (a :: t) = max a.length (maxLen t) := rfl

theorem le_maxLen (pv : List (List (Nat × Rat))) :
    ∀ r ∈ pv, r.length ≤ maxLen pv := by
  induction pv with
  | nil => intro r hr; cases hr
  | cons a t ih =>
    intro r hr
    rw [maxLen_cons]
    cases hr with
    | head => exact Nat.le_max_left _ _
    | tail _ hmem => exact le_trans (ih r hmem) (Nat.le_max_right _ _)

theorem maxLen_replicate_nil (n : Nat) : maxLen (List.replicate n ([] : List (Nat × Rat))) = 0 := by
  induction n with
  | zero => rfl
  | succ n ih => rw [List.replicate_succ, maxLen_cons, ih]; rfl

theorem getD_set_self (l : List (List (Nat × Rat))) (i : Nat) (a : List (Nat × Rat))
    (hi : i < l.length) : (l.set i a).getD i [] = a := by
  rw [List.getD_eq_getElem?_getD, List.getElem?_set_self]
  · simp
  · exact hi

theorem maxLen_set (pv : List (List (Nat × Rat))) :
    ∀ (i : Nat) (r' : List (Nat × Rat)), i < pv.length → (pv.getD i []).length ≤ r'.length →
      maxLen (pv.set i r') = max r'.length (maxLen pv) := by
  induction pv with
  | nil => intro i r' hi _; cases (Nat.not_lt_zero i) hi
  | cons a t ih =>
    intro i r' hi hle
    cases i with
    | zero =>
      rw [List.set_cons_zero, maxLen_cons, maxLen_cons]
      have ha : a.length ≤ r'.length := by simpa using hle
      omega
    | succ i =>
      rw [List.set_cons_succ, maxLen_cons, maxLen_cons,
        ih i r' (by simpa using hi) (by simpa using hle)]
      omega

theorem recordInfluence_inv (cpc : Nat) (acc : BindAccum) (cp : Nat) (w : Rat)
    (hinv : BindInv cpc acc) (hcp : cp < cpc) (hw : 0 < w) :
    BindInv cpc (recordInfluence acc cp w) := by
  obtain ⟨hlen, hes, hpos⟩ := hinv
  have hcp' : cp < acc.perVertex.length := by rw [hlen]; exact hcp
  have hgetmem : acc.perVertex.getD cp [] ∈ acc.perVertex := by
    rw [List.getD_eq_getElem?_getD, List.getElem?_eq_getElem hcp']
    exact List.getElem_mem hcp'
  unfold recordInfluence BindInv
  refine ⟨?_, ?_, ?_⟩
  · simpa [List.length_set] using hlen
  · show max ((acc.perVertex.set cp
          (acc.perVertex.getD cp [] ++ [(acc.jointsUsed.length, w)])).getD cp []).length
        acc.elementSize
      = maxLen (acc.perVertex.set cp
          (acc.perVertex.getD cp [] ++ [(acc.jointsUsed.length, w)]))
    rw [getD_set_self _ _ _ hcp',
      maxLen_set acc.perVertex cp (acc.perVertex.getD cp [] ++ [(acc.jointsUsed.length, w)])
        hcp' (by simp), hes]
  · intro r hr q hq
    rcases List.mem_or_eq_of_mem_set hr with hmem | rfl
    · exact hpos r hmem q hq
    · rcases List.mem_append.mp hq with hq1 | hq2
      · exact hpos _ hgetmem q hq1
      · rw [List.mem_singleton.mp hq2]
        exact hw

theorem foldl_record_inv (cpc : Nat) (infl : List (Nat × Rat)) :
    ∀ acc : BindAccum, BindInv cpc acc →
      (∀ iw ∈ infl, iw.1 < cpc ∧ 0 < iw.2) →
      BindInv cpc (infl.foldl (fun a iw => recordInfluence a iw.1 iw.2) acc) := by
  induction infl with
  | nil => intro acc h _; exact h
  | cons iw rest ih =>
    intro acc h hwf
    rw [List.foldl_cons]
    exact ih _
      (recordInfluence_inv cpc acc iw.1 iw.2 h (hwf iw (.head _)).1 (hwf iw (.head _)).2)
      fun x hx => hwf x (.tail _ hx)

theorem processCluster_inv (cpc : Nat) (root : String) (acc : BindAccum) (c : Cluster)
    (h : BindInv cpc acc) (hwf : ∀ iw ∈ c.influences, iw.1 < cpc ∧ 0 < iw.2) :
    BindInv cpc (processCluster root acc c) := by
  unfold processCluster
  cases c.link with
  | none => exact h
  | some link => exact foldl_record_inv cpc c.influences acc h hwf

theorem foldl_processCluster_inv (cpc : Nat) (root : String) (cls : List Cluster) :
    ∀ acc : BindAccum, BindInv cpc acc →
      (∀ c ∈ cls, ∀ iw ∈ c.influences, iw.1 < cpc ∧ 0 < iw.2) →
      BindInv cpc (cls.foldl (processCluster root) acc) := by
  induction cls with
  | nil => intro acc h _; exact h
  | cons c rest ih =>
    intro acc h hwf
    rw [List.foldl_cons]
    exact ih _ (processCluster_inv cpc root acc c h (hwf c (.head _)))
      fun x hx => hwf x (.tail _ hx)

theorem bindAccumOf_inv (cpc : Nat) (root : String) (skin : Skin)
    (hwf : ∀ c ∈ skin.clusters, ∀ iw ∈ c.influences, iw.1 < cpc ∧ 0 < iw.2) :
    BindInv cpc (bindAccumOf root skin cpc) := by
  unfold bindAccumOf
  refine foldl_processCluster_inv cpc root skin.clusters _ ⟨by simp, ?_, ?_⟩ hwf
  · show (0 : Nat) = maxLen (List.replicate cpc [])
    rw [maxLen_replicate_nil]
  · intro r hr q hq
    rw [List.eq_of_mem_replicate hr] at hq
    cases hq

theorem getD_append_left {α : Type} (l₁ l₂ : List α) (i : Nat) (d : α) (h : i < l₁.length) :
    (l₁ ++ l₂).getD i d = l₁.getD i d := by
  rw [List.getD_eq_getElem?_getD, List.getD_eq_getElem?_getD, List.getElem?_append_left h]

theorem getD_append_right {α : Type} (l₁ l₂ : List α) (i : Nat) (d : α) (h : l₁.length ≤ i) :
    (l₁ ++ l₂).getD i d = l₂.getD (i - l₁.length) d := by
  rw [List.getD_eq_getElem?_getD, List.getD_eq_getElem?_getD, List.getElem?_append_right h]

theorem padRow_length (es : Nat) (r : List (Nat × Rat)) : (padRow es r).length = es := by
  simp [padRow]

theorem padRow_eq_append (es : Nat) (r : List (Nat × Rat)) (h : r.length ≤ es) :
    padRow es r = r ++ List.replicate (es - r.length) (0, 0) := by
  apply List.ext_getElem
  · rw [padRow_length, List.length_append, List.length_replicate]
    omega
  · intro i h1 h2
    simp only [padRow, List.getElem_map, List.getElem_range]
    have hlast : es - (es - r.length) = r.length := by omega
    rw [hlast]
    rw [padRow_length] at h1
    by_cases hi : i < r.length
    · rw [if_pos hi, List.getElem_append_left hi, List.getD_eq_getElem?_getD,
        List.getElem?_eq_getElem hi]
      rfl
    · rw [if_neg hi, List.getElem_append_right (Nat.le_of_not_lt hi), List.getElem_replicate]

theorem flatten_length_uniform (k : Nat) :
    ∀ rows : List (List (Nat × Rat)), (∀ r ∈ rows, r.length = k) →
      rows.flatten.length = rows.length * k := by
  intro rows
  induction rows with
  | nil => intro _; simp
  | cons r rest ih =>
    intro h
    rw [List.flatten_cons, List.length_append, ih fun x hx => h x (.tail _ hx),
      h r (.head _), List.length_cons, Nat.succ_mul]
    omega

theorem chunksOf_nil (k : Nat) : chunksOf k [] = [] := by
  unfold chunksOf
  simp

theorem chunksOf_flatten (k : Nat) (hk : 0 < k) :
    ∀ rows : List (List (Nat × Rat)), (∀ r ∈ rows, r.length = k) →
      chunksOf k rows.flatten = rows := by
  intro rows
  induction rows with
  | nil => intro _; rw [List.flatten_nil, chunksOf_nil]
  | cons r rest ih =>
    intro h
    have hr : r.length = k := h r (.head _)
    have hne : r ++ rest.flatten ≠ [] := by
      intro hnil
      have h0 : r = [] := (List.append_eq_nil.mp hnil).1
      rw [h0] at hr
      simp at hr
      omega
    rw [List.flatten_cons]
    unfold chunksOf
    rw [dif_neg (by push_neg; exact ⟨by omega, hne⟩)]
    rw [List.take_left' hr, List.drop_left' hr, ih fun x hx => h x (.tail _ hx)]

theorem flatten_getD_uniform (k : Nat) (d : Nat × Rat) :
    ∀ (rows : List (List (Nat × Rat))) (v i : Nat), (∀ r ∈ rows, r.length = k) →
      v < rows.length → i < k →
      rows.flatten.getD (v * k + i) d = (rows.getD v []).getD i d := by
  intro rows
  induction rows with
  | nil => intro v i _ hv _; cases hv
  | cons r rest ih =>
    intro v i h hv hi
    have hr : r.length = k := h r (.head _)
    rw [List.flatten_cons]
    cases v with
    | zero =>
      rw [Nat.zero_mul, Nat.zero_add, getD_append_left _ _ _ _ (by omega), List.getD_cons_zero]
    | succ v =>
      rw [getD_append_right _ _ _ _ (by rw [hr, Nat.succ_mul]; omega), List.getD_cons_succ]
      have harith : (v + 1) * k + i - r.length = v * k + i := by rw [hr, Nat.succ_mul]; omega
      rw [harith]
      exact ih v i (fun x hx => h x (.tail _ hx)) (by simpa using hv) hi

theorem normalizeChunk_length (c : List (Nat × Rat)) : (normalizeChunk c).length = c.length := by
  by_cases h : (c.map Prod.snd).sum = 0 <;> simp [normalizeChunk, h]

theorem normalizeChunk_of_sum_eq_zero (c : List (Nat × Rat))
    (h : (c.map Prod.snd).sum = 0) : normalizeChunk c = c := by
  simp [normalizeChunk, h]

theorem normalizeChunk_of_sum_ne_zero (c : List (Nat × Rat))
    (h : (c.map Prod.snd).sum ≠ 0) :
    normalizeChunk c = c.map fun p => (p.1, p.2 / (c.map Prod.snd).sum) := by
  simp [normalizeChunk, h]

theorem getD_map_in {α β : Type} (f : α → β) (l : List α) (i : Nat) (d : β) (d' : α)
    (h : i < l.length) : (l.map f).getD i d = f (l.getD i d') := by
  rw [List.getD_eq_getElem?_getD, List.getD_eq_getElem?_getD, List.getElem?_map,
    List.getElem?_eq_getElem h]
  rfl

theorem sorted_tail_pad :
    ∀ s : List (Nat × Rat),
      s.Pairwise (fun a b => b.2 ≤ a.2) →
      (∀ x ∈ s, ¬0 < x.2 → x = (0, 0)) →
      ∀ i, s.countP (fun x => decide (0 < x.2)) ≤ i → i < s.length →
        s.getD i (0, 0) = (0, 0) := by
  intro s
  induction s with
  | nil =>
    intro _ _ i _ hi
    simp at hi
  | cons a t ih =>
    intro hp hz i hcount hlen
    by_cases ha : 0 < a.2
    · rw [List.countP_cons_of_pos _ _ (by simpa using ha)] at hcount
      cases i with
      | zero => omega
      | succ i =>
        rw [List.getD_cons_succ]
        exact ih hp.of_cons (fun x hx => hz x (.tail _ hx)) i (by omega) (by simpa using hlen)
    · have ha0 : a = (0, 0) := hz a (.head _) ha
      cases i with
      | zero => rw [List.getD_cons_zero]; exact ha0
      | succ i =>
        rw [List.getD_cons_succ]
        have hall : ∀ x ∈ t, x = ((0 : Nat), (0 : Rat)) := by
          intro x hx
          have hle : x.2 ≤ a.2 := (List.pairwise_cons.mp hp).1 x hx
          rw [ha0] at hle
          exact hz x (.tail _ hx) (not_lt.mpr (by simpa using hle))
        have hlen' : i < t.length := by simpa using hlen
        have hget : t.getD i (0, 0) = t[i] := by
          rw [List.getD_eq_getElem?_getD, List.getElem?_eq_getElem hlen']
          rfl
        rw [hget]
        exact hall _ (List.getElem_mem hlen')

theorem sortChunk_tail_pad (es : Nat) (r : List (Nat × Rat))
    (hle : r.length ≤ es) (hpos : ∀ p ∈ r, 0 < p.2) :
    ∀ i, r.length ≤ i → i < es →
      ((normalizeChunk (padRow es r)).mergeSort fun a b => decide (b.2 ≤ a.2)).getD i (0, 0)
        = (0, 0) := by
  intro i hi1 hi2
  obtain ⟨nr, pad, hchunk, hnrlen, hnrpos, hpad⟩ :
      ∃ nr pad, normalizeChunk (padRow es r) = nr ++ pad ∧ nr.length = r.length
        ∧ (∀ p ∈ nr, 0 < p.2) ∧ ∀ p ∈ pad, p = ((0 : Nat), (0 : Rat)) := by
    rw [padRow_eq_append es r hle]
    by_cases hr : r = []
    · subst hr
      refine ⟨[], List.replicate (es - 0) (0, 0), ?_, rfl, ?_, ?_⟩
      · rw [List.nil_append]
        exact normalizeChunk_of_sum_eq_zero _ (by rw [List.map_replicate]; simp)
      · intro p hp
        cases hp
      · intro p hp
        exact List.eq_of_mem_replicate hp
    · have hsum0 : ((List.replicate (es - r.length) ((0 : Nat), (0 : Rat))).map Prod.snd).sum
          = 0 := by
        rw [List.map_replicate]
        simp
      have hSpos : 0 < (r.map Prod.snd).sum := by
        apply List.sum_pos
        · intro q hq
          obtain ⟨p, hp, rfl⟩ := List.mem_map.mp hq
          exact hpos p hp
        · simpa using hr
      have hsum : (((r ++ List.replicate (es - r.length) (0, 0)).map Prod.snd).sum)
          = (r.map Prod.snd).sum := by
        rw [List.map_append, List.sum_append, hsum0, add_zero]
      rw [normalizeChunk_of_sum_ne_zero _ (by rw [hsum]; exact ne_of_gt hSpos), hsum,
        List.map_append]
      refine ⟨_, _, rfl, List.length_map _ _, ?_, ?_⟩
      · intro p hp
        obtain ⟨q, hq, rfl⟩ := List.mem_map.mp hp
        exact div_pos (hpos q hq) hSpos
      · intro p hp
        obtain ⟨q, hq, rfl⟩ := List.mem_map.mp hp
        rw [List.eq_of_mem_replicate hq]
        simp
  rw [hchunk]
  have hperm := List.mergeSort_perm (nr ++ pad) fun a b => decide (b.2 ≤ a.2)
  have hsorted : (List.mergeSort (nr ++ pad) fun a b => decide (b.2 ≤ a.2)).Pairwise
      fun a b => b.2 ≤ a.2 := by
    have h0 := @List.sorted_mergeSort (Nat × Rat)
      (fun a b : Nat × Rat => decide (b.2 ≤ a.2))
      (fun a b c h1 h2 => by
        simp only [decide_eq_true_eq] at h1 h2 ⊢
        exact le_trans h2 h1)
      (fun a b => by
        simp only [Bool.or_eq_true, decide_eq_true_eq]
        exact le_total b.2 a.2)
      (nr ++ pad)
    exact h0.imp fun h => by simpa using h
  have hz : ∀ x ∈ List.mergeSort (nr ++ pad) fun a b => decide (b.2 ≤ a.2),
      ¬0 < x.2 → x = (0, 0) := by
    intro x hx hnp
    rcases List.mem_append.mp (hperm.mem_iff.mp hx) with hmem | hmem
    · exact absurd (hnrpos x hmem) hnp
    · exact hpad x hmem
  have hcount : (List.mergeSort (nr ++ pad) fun a b => decide (b.2 ≤ a.2)).countP
      (fun x => decide (0 < x.2)) = r.length := by
    rw [hperm.countP_eq, List.countP_append]
    have h1 : nr.countP (fun x => decide (0 < x.2)) = nr.length :=
      List.countP_eq_length.mpr fun a ha => by simpa using hnrpos a ha
    have h2 : pad.countP (fun x => decide (0 < x.2)) = 0 := by
      rw [List.countP_eq_zero]
      intro a ha
      rw [hpad a ha]
      simp
    rw [h1, h2, hnrlen, Nat.add_zero]
  have hlen : (List.mergeSort (nr ++ pad) fun a b => decide (b.2 ≤ a.2)).length = es := by
    rw [List.length_mergeSort]
    have := congrArg List.length hchunk
    rw [normalizeChunk_length, padRow_length] at this
    omega
  exact sorted_tail_pad _ hsorted hz i (by omega) (by omega)

theorem getBindingData_influencesPerVertex (skin : Skin) (cpc : Nat)
    (hlen0 : ¬skin.clusters.length = 0) :
    (getBindingData skin cpc).influencesPerVertex
      = (bindAccumOf (rootNameOf skin) skin cpc).elementSize := by
  unfold getBindingData
  rw [if_neg hlen0]
  rfl

theorem getBindingData_perVertexInfluences (skin : Skin) (cpc : Nat)
    (hlen0 : ¬skin.clusters.length = 0) :
    (getBindingData skin cpc).perVertexInfluences = (sortedFlatOf skin cpc).map Prod.fst := by
  unfold getBindingData
  rw [if_neg hlen0]
  rfl

theorem getBindingData_perVertexWeights (skin : Skin) (cpc : Nat)
    (hlen0 : ¬skin.clusters.length = 0) :
    (getBindingData skin cpc).perVertexWeights = (sortedFlatOf skin cpc).map Prod.snd := by
  unfold getBindingData
  rw [if_neg hlen0]
  rfl

theorem sortedFlatOf_def (skin : Skin) (cpc : Nat) :
    sortedFlatOf skin cpc
      = usdSkelSortInfluences
          (usdSkelNormalizeWeights
            (((bindAccumOf (rootNameOf skin) skin cpc).perVertex.map
                (padRow (bindAccumOf (rootNameOf skin) skin cpc).elementSize)).flatten)
            (bindAccumOf (rootNameOf skin) skin cpc).elementSize)
          (bindAccumOf (rootNameOf skin) skin cpc).elementSize := rfl

/-- C7: for a skin with at least one (linked) cluster, the flattened
joint-index and joint-weight arrays each have length exactly
`controlPointsCount * influencesPerVertex`, where `influencesPerVertex` is
the maximum number of influences recorded for any single control point;
and, vertex-major, every slot of a vertex at or beyond its real influence
count holds joint index 0 and weight 0. -/
theorem binding_arrays_rectangular (skin : Skin) (cpc : Nat)
    (hne : skin.clusters ≠ [])
    (hlink : ((skin.clusters.headD ⟨none, []⟩).link).isSome = true)
    (hwf : ∀ c ∈ skin.clusters, ∀ iw ∈ c.influences, iw.1 < cpc ∧ 0 < iw.2) :
    (getBindingData skin cpc).influencesPerVertex
        = maxLen (bindAccumOf (rootNameOf skin) skin cpc).perVertex
    ∧ (getBindingData skin cpc).perVertexInfluences.length
        = cpc * (getBindingData skin cpc).influencesPerVertex
    ∧ (getBindingData skin cpc).perVertexWeights.length
        = cpc * (getBindingData skin cpc).influencesPerVertex
    ∧ ∀ v, v < cpc → ∀ i,
        ((bindAccumOf (rootNameOf skin) skin cpc).perVertex.getD v []).length ≤ i →
        i < (getBindingData skin cpc).influencesPerVertex →
        (getBindingData skin cpc).perVertexInfluences.getD
            (v * (getBindingData skin cpc).influencesPerVertex + i) 0 = 0
        ∧ (getBindingData skin cpc).perVertexWeights.getD
            (v * (getBindingData skin cpc).influencesPerVertex + i) 1 = 0 := by
  have hlen0 : ¬skin.clusters.length = 0 := by
    simpa [List.length_eq_zero] using hne
  obtain ⟨hpvlen, hes, hpos⟩ := bindAccumOf_inv cpc (rootNameOf skin) skin hwf
  have hrows : ∀ rr ∈ (bindAccumOf (rootNameOf skin) skin cpc).perVertex.map
      (padRow (bindAccumOf (rootNameOf skin) skin cpc).elementSize),
      rr.length = (bindAccumOf (rootNameOf skin) skin cpc).elementSize := by
    intro rr hrr
    obtain ⟨r, hr, rfl⟩ := List.mem_map.mp hrr
    exact padRow_length _ _
  have hflatlen : ((bindAccumOf (rootNameOf skin) skin cpc).perVertex.map
      (padRow (bindAccumOf (rootNameOf skin) skin cpc).elementSize)).flatten.length
      = cpc * (bindAccumOf (rootNameOf skin) skin cpc).elementSize := by
    rw [flatten_length_uniform _ _ hrows, List.length_map, hpvlen]
  by_cases hz : (bindAccumOf (rootNameOf skin) skin cpc).elementSize = 0
  · have hflat : ((bindAccumOf (rootNameOf skin) skin cpc).perVertex.map
        (padRow (bindAccumOf (rootNameOf skin) skin cpc).elementSize)).flatten = [] := by
      apply List.eq_nil_of_length_eq_zero
      rw [hflatlen, hz, Nat.mul_zero]
    have hsf : sortedFlatOf skin cpc = [] := by
      rw [sortedFlatOf_def, hflat]
      unfold usdSkelNormalizeWeights
      rw [chunksOf_nil]
      unfold usdSkelSortInfluences
      simp only [List.map_nil, List.flatten_nil, chunksOf_nil]
    refine ⟨?_, ?_, ?_, ?_⟩
    · rw [getBindingData_influencesPerVertex skin cpc hlen0]
      exact hes
    · rw [getBindingData_perVertexInfluences skin cpc hlen0,
        getBindingData_influencesPerVertex skin cpc hlen0, hsf, hz]
      simp
    · rw [getBindingData_perVertexWeights skin cpc hlen0,
        getBindingData_influencesPerVertex skin cpc hlen0, hsf, hz]
      simp
    · intro v hv i hri hies
      rw [getBindingData_influencesPerVertex skin cpc hlen0, hz] at hies
      exact absurd hies (Nat.not_lt_zero i)
  · have hespos : 0 < (bindAccumOf (rootNameOf skin) skin cpc).elementSize :=
      Nat.pos_of_ne_zero hz
    have hchunks1 := chunksOf_flatten _ hespos _ hrows
    have hnrows : ∀ rr ∈ ((bindAccumOf (rootNameOf skin) skin cpc).perVertex.map
        (padRow (bindAccumOf (rootNameOf skin) skin cpc).elementSize)).map normalizeChunk,
        rr.length = (bindAccumOf (rootNameOf skin) skin cpc).elementSize := by
      intro rr hrr
      obtain ⟨r, hr, rfl⟩ := List.mem_map.mp hrr
      rw [normalizeChunk_length]
      exact hrows r hr
    have hsf : sortedFlatOf skin cpc
        = ((((bindAccumOf (rootNameOf skin) skin cpc).perVertex.map
              (padRow (bindAccumOf (rootNameOf skin) skin cpc).elementSize)).map
              normalizeChunk).map
            fun c => c.mergeSort fun a b => decide (b.2 ≤ a.2)).flatten := by
      rw [sortedFlatOf_def]
      unfold usdSkelNormalizeWeights
      rw [hchunks1]
      unfold usdSkelSortInfluences
      rw [chunksOf_flatten _ hespos _ hnrows]
    have hsortlens : ∀ rr ∈ (((bindAccumOf (rootNameOf skin) skin cpc).perVertex.map
        (padRow (bindAccumOf (rootNameOf skin) skin cpc).elementSize)).map
          normalizeChunk).map (fun c => c.mergeSort fun a b => decide (b.2 ≤ a.2)),
        rr.length = (bindAccumOf (rootNameOf skin) skin cpc).elementSize := by
      intro rr hrr
      obtain ⟨r, hr, rfl⟩ := List.mem_map.mp hrr
      rw [List.length_mergeSort]
      exact hnrows r hr
    have hsflen : (sortedFlatOf skin cpc).length
        = cpc * (bindAccumOf (rootNameOf skin) skin cpc).elementSize := by
      rw [hsf, flatten_length_uniform _ _ hsortlens, List.length_map, List.length_map,
        List.length_map, hpvlen]
    refine ⟨?_, ?_, ?_, ?_⟩
    · rw [getBindingData_influencesPerVertex skin cpc hlen0]
      exact hes
    · rw [getBindingData_perVertexInfluences skin cpc hlen0,
        getBindingData_influencesPerVertex skin cpc hlen0, List.length_map, hsflen]
    · rw [getBindingData_perVertexWeights skin cpc hlen0,
        getBindingData_influencesPerVertex skin cpc hlen0, List.length_map, hsflen]
    · intro v hv i hri hies
      rw [getBindingData_influencesPerVertex skin cpc hlen0] at hies
      rw [getBindingData_influencesPerVertex skin cpc hlen0,
        getBindingData_perVertexInfluences skin cpc hlen0,
        getBindingData_perVertexWeights skin cpc hlen0]
      have hjlt : v * (bindAccumOf (rootNameOf skin) skin cpc).elementSize + i
          < cpc * (bindAccumOf (rootNameOf skin) skin cpc).elementSize := by
        calc v * (bindAccumOf (rootNameOf skin) skin cpc).elementSize + i
            < v * (bindAccumOf (rootNameOf skin) skin cpc).elementSize
              + (bindAccumOf (rootNameOf skin) skin cpc).elementSize := by omega
          _ = (v + 1) * (bindAccumOf (rootNameOf skin) skin cpc).elementSize := by
              rw [Nat.succ_mul]
          _ ≤ cpc * (bindAccumOf (rootNameOf skin) skin cpc).elementSize :=
              Nat.mul_le_mul_right _ (by omega)
      have hvlt2 : v < ((((bindAccumOf (rootNameOf skin) skin cpc).perVertex.map
          (padRow (bindAccumOf (rootNameOf skin) skin cpc).elementSize)).map
            normalizeChunk).map (fun c => c.mergeSort fun a b => decide (b.2 ≤ a.2))).length := by
        rw [List.length_map, List.length_map, List.length_map, hpvlen]
        exact hv
      have hvlt1 : v < (bindAccumOf (rootNameOf skin) skin cpc).perVertex.length := by
        rw [hpvlen]
        exact hv
      have hrmem : (bindAccumOf (rootNameOf skin) skin cpc).perVertex.getD v []
          ∈ (bindAccumOf (rootNameOf skin) skin cpc).perVertex := by
        rw [List.getD_eq_getElem?_getD, List.getElem?_eq_getElem hvlt1]
        exact List.getElem_mem hvlt1
      have hmain : (sortedFlatOf skin cpc).getD
          (v * (bindAccumOf (rootNameOf skin) skin cpc).elementSize + i) (0, 0) = (0, 0) := by
        rw [hsf, flatten_getD_uniform _ _ _ v i hsortlens hvlt2 hies,
          getD_map_in _ _ v [] [] (by rw [List.length_map, List.length_map, hpvlen]; exact hv),
          getD_map_in _ _ v [] [] (by rw [List.length_map, hpvlen]; exact hv),
          getD_map_in _ _ v [] [] hvlt1]
        refine sortChunk_tail_pad _ _ ?_ (hpos _ hrmem) i hri hies
        rw [hes]
        exact le_maxLen _ _ hrmem
      constructor
      · rw [getD_map_in Prod.fst _ _ 0 (0, 0) (by rw [hsflen]; exact hjlt), hmain]
      · rw [getD_map_in Prod.snd _ _ 1 (0, 0) (by rw [hsflen]; exact hjlt), hmain]

/-- C6 witness: the theorem applied to a concrete curve-bound float
property over the frame range `[-1, 2]`. -/
theorem animation_one_sample_per_frame_witness :
    (getPropertyAnimation boundPropFixture true (-1) 2 = []
      ↔ true = false ∨ ¬isCurveBound boundPropFixture ∨ noAttachedCurve boundPropFixture)
    ∧ (getPropertyAnimation boundPropFixture true (-1) 2 ≠ [] →
        (getPropertyAnimation boundPropFixture true (-1) 2).length = ((2 : Int) - -1).toNat + 1
        ∧ (getPropertyAnimation boundPropFixture true (-1) 2).map Prod.fst
            = (frameList (-1) 2).map (fun f => ((f : Int) : Rat))
        ∧ ((getPropertyAnimation boundPropFixture true (-1) 2).map Prod.fst).Pairwise (· < ·)) :=
  animation_one_sample_per_frame boundPropFixture true (-1) 2 (by decide)

/-- C7 witness: the theorem applied to the two-cluster skin fixture over
two control points. -/
theorem binding_arrays_rectangular_witness :
    (getBindingData skinFixture 2).influencesPerVertex
        = maxLen (bindAccumOf (rootNameOf skinFixture) skinFixture 2).perVertex
    ∧ (getBindingData skinFixture 2).perVertexInfluences.length
        = 2 * (getBindingData skinFixture 2).influencesPerVertex
    ∧ (getBindingData skinFixture 2).perVertexWeights.length
        = 2 * (getBindingData skinFixture 2).influencesPerVertex
    ∧ ∀ v, v < 2 → ∀ i,
        ((bindAccumOf (rootNameOf skinFixture) skinFixture 2).perVertex.getD v []).length ≤ i →
        i < (getBindingData skinFixture 2).influencesPerVertex →
        (getBindingData skinFixture 2).perVertexInfluences.getD
            (v * (getBindingData skinFixture 2).influencesPerVertex + i) 0 = 0
        ∧ (getBindingData skinFixture 2).perVertexWeights.getD
            (v * (getBindingData skinFixture 2).influencesPerVertex + i) 1 = 0 :=
  binding_arrays_rectangular skinFixture 2 (List.cons_ne_nil _ _) rfl (by decide)
